import Mathlib

/-!
Shallow embedding of the libcaf repository core (src/libcaf/libcaf):
the tree data model, the structural diff engine with move detection
(Repository.diff), the diff appliers (Repository._apply_diffs and
checkout.apply_diffs), reference resolution (Repository.resolve_ref),
checkout-target resolution, checkout, status, and delete_branch.

Python dicts are modelled as association lists preserving insertion
order; Python object references in the diff forest (parent and
moved_from / moved_to back-pointers) are modelled as indices into an
arena (a list of diff nodes); filesystem state is a finite tree; hashing
is content-addressed (the hash plumbing module is external to the
repository, so it is modelled from the spec as an injective canonical
encoding).  Loops whose termination depends on the object store are
given explicit fuel; running out of fuel returns `none`.
-/

/-- Lookup in a Python-dict-like association list: first binding wins. -/
def dictGet {α : Type} (m : List (String × α)) (k : String) : Option α :=
  (m.find? (fun p => p.1 == k)).map (fun p => p.2)

/-- Python dict assignment: overwrite in place if the key exists, else append. -/
def dictSet {α : Type} (m : List (String × α)) (k : String) (v : α) :
    List (String × α) :=
  if (dictGet m k).isSome then
    m.map (fun p => if p.1 == k then (k, v) else p)
  else
    m ++ [(k, v)]

/-- Python dict deletion. -/
def dictDel {α : Type} (m : List (String × α)) (k : String) : List (String × α) :=
  m.filter (fun p => p.1 != k)

/-- Fold a list of bindings into a dict (used to merge tree caches). -/
def dictSets {α : Type} (m : List (String × α)) (l : List (String × α)) :
    List (String × α) :=
  l.foldl (fun acc p => dictSet acc p.1 p.2) m

/-- Strip a literal character prefix from a character list
(`none` when it is not a prefix). -/
def stripChars : List Char → List Char → Option (List Char)
  | [], s => some s
  | _ :: _, [] => none
  | p :: ps, c :: cs => if p == c then stripChars ps cs else none

/-- Model of Python `s.startswith(pre)`. -/
def strStartsWith (s pre : String) : Bool :=
  (stripChars pre.data s.data).isSome

/-- Strip a string prefix, returning the remainder when it is a prefix. -/
def stripPre (pre s : String) : Option String :=
  (stripChars pre.data s.data).map String.mk

/-- Model of Python `s.upper()`. -/
def pyUpper (s : String) : String :=
  String.mk (s.data.map Char.toUpper)

/-- Last path component of a ref file path (Python `Path(...).name`):
the part after the final slash. -/
def baseName (s : String) : String :=
  String.mk (go s.data [])
where
  go : List Char → List Char → List Char
    | [], acc => acc
    | c :: cs, acc => if c == '/' then go cs [] else go cs (acc ++ [c])

theorem stripChars_eq_append {ps cs r : List Char}
    (h : stripChars ps cs = some r) : cs = ps ++ r := by
  induction ps generalizing cs with
  | nil => simpa [stripChars] using h
  | cons p ps ih =>
    cases cs with
    | nil => simp [stripChars] at h
    | cons c cs' =>
      by_cases hpc : p = c
      · subst hpc
        simp [stripChars] at h
        simpa using ih h
      · simp [stripChars, hpc] at h

theorem strAppend_data (a b : String) : (a ++ b).data = a.data ++ b.data := rfl

theorem strEqOfData {a b : String} (h : a.data = b.data) : a = b := by
  cases a; cases b; exact congrArg String.mk h

theorem stripPre_eq {pre s r : String} (h : stripPre pre s = some r) :
    s = pre ++ r := by
  unfold stripPre at h
  cases hs : stripChars pre.data s.data with
  | none => simp [hs] at h
  | some cs =>
    simp [hs] at h
    apply strEqOfData
    rw [strAppend_data]
    have := stripChars_eq_append hs
    rw [this, ← h]

/-- Insert an element into an already sorted list
(model of one step of a stable sort). -/
def insertLe {α : Type} (le : α → α → Bool) (a : α) : List α → List α
  | [] => [a]
  | b :: l => if le a b then a :: b :: l else b :: insertLe le a l

/-- Stable insertion sort; with `le a b` meaning "key a ≤ key b" this has
the same observable behaviour as Python's stable `sorted`. -/
def sortByB {α : Type} (le : α → α → Bool) : List α → List α
  | [] => []
  | a :: l => insertLe le a (sortByB le l)

theorem mem_insertLe {α : Type} (le : α → α → Bool) (a x : α) (l : List α)
    (h : x ∈ insertLe le a l) : x = a ∨ x ∈ l := by
  induction l with
  | nil => simpa [insertLe] using h
  | cons b l ih =>
    unfold insertLe at h
    by_cases hle : le a b
    · simp [hle] at h
      rcases h with h | h | h
      · exact Or.inl h
      · exact Or.inr (by simp [h])
      · exact Or.inr (by simp [h])
    · simp [hle] at h
      rcases h with h | h
      · exact Or.inr (by simp [h])
      · rcases ih h with h1 | h1
        · exact Or.inl h1
        · exact Or.inr (by simp [h1])

theorem pairwise_insertLe {α : Type} (le : α → α → Bool)
    (htot : ∀ a b, le a b = true ∨ le b a = true)
    (htrans : ∀ a b c, le a b = true → le b c = true → le a c = true)
    (a : α) (l : List α)
    (h : List.Pairwise (fun x y => le x y = true) l) :
    List.Pairwise (fun x y => le x y = true) (insertLe le a l) := by
  induction l with
  | nil => simp [insertLe]
  | cons b l ih =>
    rcases List.pairwise_cons.mp h with ⟨hb, hl⟩
    unfold insertLe
    by_cases hle : le a b
    · simp only [hle, if_true]
      refine List.pairwise_cons.mpr ⟨?_, h⟩
      intro x hx
      rcases List.mem_cons.mp hx with hx1 | hx1
      · simpa [hx1] using hle
      · exact htrans a b x hle (hb x hx1)
    · simp only [hle, if_false]
      refine List.pairwise_cons.mpr ⟨?_, ih hl⟩
      intro x hx
      rcases mem_insertLe le a x l hx with hx1 | hx1
      · rw [hx1]
        rcases htot a b with h1 | h1
        · exact absurd h1 (by simpa using hle)
        · exact h1
      · exact hb x hx1

theorem pairwise_sortByB {α : Type} (le : α → α → Bool)
    (htot : ∀ a b, le a b = true ∨ le b a = true)
    (htrans : ∀ a b c, le a b = true → le b c = true → le a c = true)
    (l : List α) :
    List.Pairwise (fun x y => le x y = true) (sortByB le l) := by
  induction l with
  | nil => simp [sortByB]
  | cons a l ih => exact pairwise_insertLe le htot htrans a (sortByB le l) ih

theorem mem_sortByB {α : Type} (le : α → α → Bool) (x : α) (l : List α)
    (h : x ∈ sortByB le l) : x ∈ l := by
  induction l with
  | nil => simp [sortByB] at h
  | cons a l ih =>
    rcases mem_insertLe le a x (sortByB le l) h with h1 | h1
    · simp [h1]
    · simp [ih h1]

/-- `TreeRecordType` from the `_libcaf` data model: a tree entry is a
blob (file) or a subtree (directory). -/
inductive TreeRecordType where
  | blob
  | tree
deriving DecidableEq, Repr

/-- `TreeRecord`: a named entry of a tree (type, target hash, name). -/
structure TreeRecord where
  type : TreeRecordType
  hash : String
  name : String
deriving DecidableEq, Repr

/-- The `Tree` of the data model (named `CafTree` here because Mathlib
already takes the name `Tree`): a mapping name → record; the
association list keeps the iteration order of the Python dict. -/
structure CafTree where
  records : List (String × TreeRecord)
deriving DecidableEq, Repr

/-- `Commit` object fields (`tree_hash`, `author`, `message`,
`timestamp`, optional `parent`). -/
structure CommitObj where
  tree_hash : String
  author : String
  message : String
  timestamp : Nat
  parent : Option String
deriving DecidableEq, Repr

/-- Annotated `Tag` object stored in the object store. -/
structure TagObj where
  name : String
  commit_hash : String
  author : String
  message : String
  timestamp : Nat
deriving DecidableEq, Repr

/-- The content-addressed object store (`objects/`): trees, commits and
tag objects keyed by hash, plus the set of stored blob hashes. -/
structure Store where
  trees : List (String × CafTree)
  commits : List (String × CommitObj)
  tags : List (String × TagObj)
  blobs : List String
deriving Repr

/-- The empty object store. -/
def emptyStore : Store := ⟨[], [], [], []⟩

/-- Modelled from the spec: `HASH_LENGTH` and `HASH_CHARSET` live in the
missing `constants` plumbing module; the spec fixes "exact length, every
character in the allowed alphabet" with a typical length of 40 lowercase
hex characters, which is what we model. -/
def hashLength : Nat := 40

/-- Modelled from the spec: the lowercase hex hash alphabet. -/
def hashCharset : List Char := "0123456789abcdef".data

/-- Hash-format validation as performed inline by `resolve_ref`,
`_resolve_checkout_target` and `create_tag`:
`len(ref) == HASH_LENGTH and all(c in HASH_CHARSET for c in ref)`. -/
def isHashFormat (s : String) : Bool :=
  s.data.length == hashLength && s.data.all (fun c => hashCharset.contains c)

/-- Total order on strings by code points, modelling Python string
comparison used by `sorted(current_path.iterdir())`. -/
def charListLe : List Char → List Char → Bool
  | [], _ => true
  | _ :: _, [] => false
  | a :: as, b :: bs =>
    if a = b then charListLe as bs else decide (a.val < b.val)

/-- String ordering for sorted directory iteration. -/
def strLe (a b : String) : Bool := charListLe a.data b.data

/-- Modelled from the spec: `hash_object` lives in the missing plumbing
module; the spec only requires that a tree's hash is determined by its
(name, type, child-hash) triples iterated in sorted name order, so the
model uses an injective canonical encoding as the hash. -/
def hashObject (t : CafTree) : String :=
  "T(" ++
    (sortByB (fun a b => strLe a.1 b.1) t.records).foldr
      (fun p acc =>
        p.1 ++ ":" ++
          (match p.2.type with
            | TreeRecordType.blob => "B"
            | TreeRecordType.tree => "D") ++ ":" ++ p.2.hash ++ ";" ++ acc)
      ")"

/-- A working-directory filesystem tree.  A file node carries the hash
of its content as computed by the external `hash_file` (content and
content-hash are identified, which is sound because the spec requires
the plumbing layer to be round-trip faithful). -/
inductive FSTree where
  | file (h : String)
  | dir (entries : List (String × FSTree))

/-- Look up a path in the filesystem (Python `Path.exists` is
`(fsFind ...).isSome`). -/
def fsFind : FSTree → List String → Option FSTree
  | t, [] => some t
  | FSTree.file _, _ :: _ => none
  | FSTree.dir es, n :: rest =>
    match dictGet es n with
    | none => none
    | some c => fsFind c rest

/-- Python `Path.is_dir()`. -/
def fsIsDir (t : FSTree) (p : List String) : Bool :=
  match fsFind t p with
  | some (FSTree.dir _) => true
  | _ => false

/-- `path.mkdir(parents=True, exist_ok=True)`: create every missing
directory on the way; `none` models `FileExistsError` or
`NotADirectoryError` when a file is in the way. -/
def fsMkdirp : FSTree → List String → Option FSTree
  | FSTree.file _, _ => none
  | FSTree.dir es, [] => some (FSTree.dir es)
  | FSTree.dir es, n :: rest =>
    match dictGet es n with
    | some c => (fsMkdirp c rest).map (fun c' => FSTree.dir (dictSet es n c'))
    | none =>
      (fsMkdirp (FSTree.dir []) rest).map
        (fun c' => FSTree.dir (dictSet es n c'))

/-- `path.mkdir(parents=False, exist_ok=True)`: the parent must already
exist as a directory; a file at the target is `FileExistsError`. -/
def fsMkdir1 : FSTree → List String → Option FSTree
  | _, [] => none
  | FSTree.file _, _ :: _ => none
  | FSTree.dir es, [n] =>
    (match dictGet es n with
     | some (FSTree.file _) => none
     | some (FSTree.dir _) => some (FSTree.dir es)
     | none => some (FSTree.dir (dictSet es n (FSTree.dir []))))
  | FSTree.dir es, n :: rest =>
    match dictGet es n with
    | some c => (fsMkdir1 c rest).map (fun c' => FSTree.dir (dictSet es n c'))
    | none => none

/-- `path.write_bytes(...)`: overwrite or create a file; the parent
chain must exist; writing over a directory is `IsADirectoryError`. -/
def fsWrite : FSTree → List String → String → Option FSTree
  | _, [], _ => none
  | FSTree.file _, _ :: _, _ => none
  | FSTree.dir es, [n], h =>
    (match dictGet es n with
     | some (FSTree.dir _) => none
     | _ => some (FSTree.dir (dictSet es n (FSTree.file h))))
  | FSTree.dir es, n :: rest, h =>
    match dictGet es n with
    | some c => (fsWrite c rest h).map (fun c' => FSTree.dir (dictSet es n c'))
    | none => none

/-- `path.unlink()` / `shutil.rmtree(path)`: remove the entry (and, for
a directory, everything below it). -/
def fsRemove : FSTree → List String → Option FSTree
  | _, [] => none
  | FSTree.file _, _ :: _ => none
  | FSTree.dir es, [n] => some (FSTree.dir (dictDel es n))
  | FSTree.dir es, n :: rest =>
    match dictGet es n with
    | some c => (fsRemove c rest).map (fun c' => FSTree.dir (dictSet es n c'))
    | none => none

/-- Insert a subtree at a path whose parent chain must exist; refuses to
overwrite an existing directory (as a filesystem rename would). -/
def fsInsert : FSTree → List String → FSTree → Option FSTree
  | _, [], _ => none
  | FSTree.file _, _ :: _, _ => none
  | FSTree.dir es, [n], node =>
    (match dictGet es n with
     | some (FSTree.dir _) => none
     | _ => some (FSTree.dir (dictSet es n node)))
  | FSTree.dir es, n :: rest, node =>
    match dictGet es n with
    | some c => (fsInsert c rest node).map (fun c' => FSTree.dir (dictSet es n c'))
    | none => none

/-- `shutil.move(src, dst)`: if `dst` is an existing directory the
source is moved inside it; otherwise the source subtree is re-attached
at `dst`. -/
def fsMove (root : FSTree) (src dst : List String) : Option FSTree :=
  match fsFind root src with
  | none => none
  | some node =>
    let realDst :=
      match fsFind root dst with
      | some (FSTree.dir _) => dst ++ [src.getLastD ""]
      | _ => dst
    match fsRemove root src with
    | none => none
    | some root1 => fsInsert root1 realDst node

/-- `.caf`, the repository metadata directory skipped by tree builders. -/
def repoDirName : String := ".caf"

/-- `internal.build_fsTree` on the entries of one directory: build the
records (skipping the repository directory) and collect every built
subtree into the shared `tree_hashes` cache.  The Python original is an
iterative two-stack bottom-up traversal; its observable result per
directory is the sorted record list built here.  Fuel (consumed on
every step) keeps the recursion structural. -/
def buildEntries : Nat → List (String × FSTree) →
    Option (List (String × TreeRecord) × List (String × CafTree))
  | 0, _ => none
  | _ + 1, [] => some ([], [])
  | fuel + 1, (n, FSTree.file fh) :: rest =>
    if n == repoDirName then buildEntries fuel rest
    else
      (buildEntries fuel rest).map
        (fun pr => ((n, TreeRecord.mk TreeRecordType.blob fh n) :: pr.1, pr.2))
  | fuel + 1, (n, FSTree.dir es) :: rest =>
    if n == repoDirName then buildEntries fuel rest
    else
      match buildEntries fuel es with
      | none => none
      | some (rs, ms) =>
        let t : CafTree := CafTree.mk (sortByB (fun a b => strLe a.1 b.1) rs)
        let h := hashObject t
        match buildEntries fuel rest with
        | none => none
        | some (rs', ms') =>
          some ((n, TreeRecord.mk TreeRecordType.tree h n) :: rs',
                ms ++ [(h, t)] ++ ms')

/-- `internal.build_fsTree`: build the root tree of a live directory,
returning the tree, its hash, and the `tree_hashes` bindings produced
bottom-up.  A non-directory root raises `NotADirectoryError` (`none`
with fuel left is that error; the fuelled recursion exhausting is also
`none`). -/
def buildFsTree (fuel : Nat) : FSTree →
    Option (CafTree × String × List (String × CafTree))
  | FSTree.file _ => none
  | FSTree.dir es =>
    match buildEntries fuel es with
    | none => none
    | some (rs, ms) =>
      let t : CafTree := CafTree.mk (sortByB (fun a b => strLe a.1 b.1) rs)
      let h := hashObject t
      some (t, h, ms ++ [(h, t)])

/-- The kind of a diff node: `Diff` (the plain base class, used for the
synthetic top-level node), `AddedDiff`, `RemovedDiff`, `ModifiedDiff`,
`MovedToDiff`, `MovedFromDiff`. -/
inductive DiffKind where
  | plain
  | added
  | removed
  | modified
  | movedTo
  | movedFrom
deriving DecidableEq, Repr

/-- A diff node of the forest.  Python object references become indices
into an arena: `parent` is the parent back-reference, `children` the
child list, and `link` the `moved_to` / `moved_from` counterpart of a
`MovedToDiff` / `MovedFromDiff`. -/
structure DiffNode where
  kind : DiffKind
  record : TreeRecord
  parent : Option Nat
  children : List Nat
  link : Option Nat
deriving DecidableEq, Repr

/-- Placeholder returned for an out-of-range arena index (the Python
code never produces such an index for the arenas it builds). -/
def defaultNode : DiffNode :=
  ⟨DiffKind.plain, TreeRecord.mk TreeRecordType.tree "" "", none, [], none⟩

/-- Read a node of the arena. -/
def getNode (arena : List DiffNode) (i : Nat) : DiffNode :=
  arena.getD i defaultNode

/-- Mutable state of `Repository.diff`: the node arena (index 0 is the
synthetic `top_level_diff`), the `potentially_added` and
`potentially_removed` hash maps, and the shared `tree_hashes` cache. -/
structure DiffSt where
  arena : List DiffNode
  potAdded : List (String × Nat)
  potRemoved : List (String × Nat)
  cache : List (String × CafTree)

/-- Allocate a new diff node, returning its index. -/
def pushNode (st : DiffSt) (nd : DiffNode) : DiffSt × Nat :=
  ({ st with arena := st.arena ++ [nd] }, st.arena.length)

/-- Update one node of the arena in place. -/
def modifyNode (st : DiffSt) (i : Nat) (f : DiffNode → DiffNode) : DiffSt :=
  { st with arena := st.arena.set i (f (getNode st.arena i)) }

/-- `parent_diff.children.append(child)`. -/
def appendChildTo (st : DiffSt) (i c : Nat) : DiffSt :=
  modifyNode st i (fun nd => { nd with children := nd.children ++ [c] })

/-- Set the `moved_to` / `moved_from` counterpart of a node. -/
def setLink (st : DiffSt) (i l : Nat) : DiffSt :=
  modifyNode st i (fun nd => { nd with link := some l })

/-- The in-place list-comprehension replacement used by the move
collapse: in the children list of `parentIdx`, every child whose
`record.hash` equals `h` is replaced by `newIdx` (`added_diff.parent
.children = [_ if _.record.hash != record.hash else moved for _ in
added_diff.parent.children]`). -/
def replaceChildrenByHash (st : DiffSt) (parentIdx : Option Nat)
    (h : String) (newIdx : Nat) : DiffSt :=
  match parentIdx with
  | none => st
  | some p =>
    modifyNode st p
      (fun nd =>
        { nd with
          children :=
            nd.children.map
              (fun c => if (getNode st.arena c).record.hash == h then newIdx
                        else c) })

/-- Diff errors; every failure of the embedded operations carries one of
these kinds (the Python code raises `RepositoryError` / `RefError` /
`ValueError` / the checkout exception classes with a message). -/
inductive RErr where
  | notFound
  | headMissing
  | refInvalid
  | tagLoadFailed
  | valueErrTarget
  | valueErrBranch
  | branchMissing
  | lastBranch
  | cannotResolveRef
  | loadCommitFailed
  | loadSubtreeFailed
  | notADirectoryPath
  | dirtyWorkdir
  | cannotResolveTarget
  | targetTreeError
  | cannotResolveCommit
  | noTargetTree
  | moveMissing
  | moveMkdirFailed
  | moveFailed
  | removeFailed
  | addMkdirFailed
  | addWriteFailed
  | modMkdirFailed
  | modWriteFailed
  | emptyPath
  | pathNotDir
  | recordNotFound
  | targetNotAFile
  | traversalNotFile
deriving DecidableEq, Repr

/-- `Repository._load_tree`: consult the shared `tree_hashes` cache,
else load from the object store (a missing object is the wrapped
`RepositoryError('Error loading subtree for diff')`). -/
def loadTreeC (store : Store) (st : DiffSt) (h : String) :
    Except RErr (CafTree × DiffSt) :=
  match dictGet st.cache h with
  | some t => Except.ok (t, st)
  | none =>
    match dictGet store.trees h with
    | some t => Except.ok (t, { st with cache := dictSet st.cache h t })
    | none => Except.error RErr.loadSubtreeFailed

/-- A work-stack entry of the diff walk: the two trees being compared
(`None` on one side inside a pure addition or removal) and the index of
the parent diff node. -/
abbrev StackEntry : Type := Option CafTree × Option CafTree × Nat

/-- First per-level loop of `Repository.diff` (`for name, record1 in
records1.items()`): removals, move collapses against
`potentially_added`, and modifications. -/
def procRecs1 (store : Store) (parentIdx : Nat)
    (records2 : List (String × TreeRecord)) :
    List (String × TreeRecord) → DiffSt → List StackEntry →
    Except RErr (DiffSt × List StackEntry)
  | [], st, pushed => Except.ok (st, pushed)
  | (name, record1) :: rest, st, pushed =>
    match dictGet records2 name with
    | some record2 =>
      if record1.hash == record2.hash then
        procRecs1 store parentIdx records2 rest st pushed
      else if record1.type == TreeRecordType.tree &&
              record2.type == TreeRecordType.tree then
        let pr := pushNode st
          ⟨DiffKind.modified, record1, some parentIdx, [], none⟩
        match loadTreeC store pr.1 record1.hash with
        | Except.error e => Except.error e
        | Except.ok (t1, st1) =>
          match loadTreeC store st1 record2.hash with
          | Except.error e => Except.error e
          | Except.ok (t2, st2) =>
            let st3 := appendChildTo st2 parentIdx pr.2
            procRecs1 store parentIdx records2 rest st3
              (pushed ++ [(some t1, some t2, pr.2)])
      else
        let pr := pushNode st
          ⟨DiffKind.modified, record1, some parentIdx, [], none⟩
        let st1 := appendChildTo pr.1 parentIdx pr.2
        procRecs1 store parentIdx records2 rest st1 pushed
    | none =>
      match dictGet st.potAdded record1.hash with
      | some addedIdx =>
        let addedNode := getNode st.arena addedIdx
        let st1 := { st with potAdded := dictDel st.potAdded record1.hash }
        let prA := pushNode st1
          ⟨DiffKind.movedTo, record1, some parentIdx, [], none⟩
        let prB := pushNode prA.1
          ⟨DiffKind.movedFrom, addedNode.record, addedNode.parent, [],
           some prA.2⟩
        let st2 := setLink prB.1 prA.2 prB.2
        let st3 := replaceChildrenByHash st2 addedNode.parent record1.hash prB.2
        let st4 := appendChildTo st3 parentIdx prA.2
        procRecs1 store parentIdx records2 rest st4 pushed
      | none =>
        let pr := pushNode st
          ⟨DiffKind.removed, record1, some parentIdx, [], none⟩
        let st1 :=
          { pr.1 with potRemoved := dictSet pr.1.potRemoved record1.hash pr.2 }
        if record1.type == TreeRecordType.tree then
          match loadTreeC store st1 record1.hash with
          | Except.error e => Except.error e
          | Except.ok (t, st2) =>
            let st3 := appendChildTo st2 parentIdx pr.2
            procRecs1 store parentIdx records2 rest st3
              (pushed ++ [(some t, none, pr.2)])
        else
          let st2 := appendChildTo st1 parentIdx pr.2
          procRecs1 store parentIdx records2 rest st2 pushed

/-- Second per-level loop of `Repository.diff` (`for name, record2 in
records2.items()`): additions and move collapses against
`potentially_removed`. -/
def procRecs2 (store : Store) (parentIdx : Nat)
    (records1 : List (String × TreeRecord)) :
    List (String × TreeRecord) → DiffSt → List StackEntry →
    Except RErr (DiffSt × List StackEntry)
  | [], st, pushed => Except.ok (st, pushed)
  | (name, record2) :: rest, st, pushed =>
    match dictGet records1 name with
    | some _ => procRecs2 store parentIdx records1 rest st pushed
    | none =>
      match dictGet st.potRemoved record2.hash with
      | some removedIdx =>
        let removedNode := getNode st.arena removedIdx
        let st1 := { st with potRemoved := dictDel st.potRemoved record2.hash }
        let prA := pushNode st1
          ⟨DiffKind.movedFrom, record2, some parentIdx, [], none⟩
        let prB := pushNode prA.1
          ⟨DiffKind.movedTo, removedNode.record, removedNode.parent, [],
           some prA.2⟩
        let st2 := setLink prB.1 prA.2 prB.2
        let st3 :=
          replaceChildrenByHash st2 removedNode.parent record2.hash prB.2
        let st4 := appendChildTo st3 parentIdx prA.2
        procRecs2 store parentIdx records1 rest st4 pushed
      | none =>
        let pr := pushNode st
          ⟨DiffKind.added, record2, some parentIdx, [], none⟩
        let st1 :=
          { pr.1 with potAdded := dictSet pr.1.potAdded record2.hash pr.2 }
        if record2.type == TreeRecordType.tree then
          match loadTreeC store st1 record2.hash with
          | Except.error e => Except.error e
          | Except.ok (t, st2) =>
            let st3 := appendChildTo st2 parentIdx pr.2
            procRecs2 store parentIdx records1 rest st3
              (pushed ++ [(none, some t, pr.2)])
        else
          let st2 := appendChildTo st1 parentIdx pr.2
          procRecs2 store parentIdx records1 rest st2 pushed

/-- One iteration of the diff work loop: process both record loops for a
popped `(tree1, tree2, parent)` entry, returning the entries pushed onto
the stack. -/
def procLevel (store : Store) (t1 t2 : Option CafTree) (parentIdx : Nat)
    (st : DiffSt) : Except RErr (DiffSt × List StackEntry) :=
  let records1 := match t1 with | some t => t.records | none => []
  let records2 := match t2 with | some t => t.records | none => []
  match procRecs1 store parentIdx records2 records1 st [] with
  | Except.error e => Except.error e
  | Except.ok (st1, pushed) =>
    procRecs2 store parentIdx records1 records2 st1 pushed

/-- The `while stack:` loop of `Repository.diff`.  The list head is the
Python list's tail (the element `stack.pop()` removes); entries pushed
during a level are prepended in reverse so the most recently pushed one
is popped first.  Fuel bounds the loop (the Python loop does not
terminate on a cyclic object store). -/
def diffLoop (store : Store) :
    Nat → List StackEntry → DiffSt → Option (Except RErr DiffSt)
  | 0, _, _ => none
  | _ + 1, [], st => some (Except.ok st)
  | fuel + 1, (t1, t2, p) :: rest, st =>
    match procLevel store t1 t2 p st with
    | Except.error e => some (Except.error e)
    | Except.ok (st1, pushed) =>
      diffLoop store fuel (pushed.reverse ++ rest) st1

/-- The core of `Repository.diff` once both targets are resolved: equal
root hashes short-circuit to the empty forest, otherwise the lockstep
walk runs with the synthetic top-level node at index 0.  Returns the
top-level children list and the arena. -/
def diffTrees (store : Store) (fuel : Nat) (cache : List (String × CafTree))
    (tree1 : CafTree) (h1 : String) (tree2 : CafTree) (h2 : String) :
    Option (Except RErr (List Nat × List DiffNode)) :=
  if h1 == h2 then some (Except.ok ([], []))
  else
    let root : DiffNode :=
      ⟨DiffKind.plain, TreeRecord.mk TreeRecordType.tree "" "", none, [], none⟩
    let st0 : DiffSt := ⟨[root], [], [], cache⟩
    match diffLoop store fuel [(some tree1, some tree2, 0)] st0 with
    | none => none
    | some (Except.error e) => some (Except.error e)
    | some (Except.ok st) =>
      some (Except.ok ((getNode st.arena 0).children, st.arena))

/-- Content of a ref file: a direct hash (`HashRef`) or a symbolic ref
(`SymRef`, a path under the refs namespace). -/
inductive RefContent where
  | hashC (h : String)
  | symC (s : String)
deriving DecidableEq, Repr

/-- A resolved checkout target (`HashRef` or `SymRef` object). -/
inductive Ref where
  | hashR (h : String)
  | symR (s : String)
deriving DecidableEq, Repr

/-- Argument forms accepted by `Repository.resolve_ref`:
`HashRef`, `SymRef`, a plain string, or `None`. -/
inductive RefArg where
  | href (h : String)
  | sref (s : String)
  | sstr (s : String)
  | noneA
deriving DecidableEq, Repr

/-- The on-disk state of one repository.  `refs` maps the path of a
file under `refs/` (for example `heads/main`, `tags/v1.0`) to its
content; a `none` content is an empty file (a freshly `touch`ed
branch).  `head` is the HEAD file (`none` when missing; init always
writes it non-empty).  The filesystem root `workdir` stands for the
working directory with the `.caf` metadata directory left out. -/
structure RepoState where
  initialized : Bool
  head : Option RefContent
  refs : List (String × Option RefContent)
  store : Store
  workdir : FSTree

/-- Modelled from the spec: `read_ref` lives in the missing `ref`
module; per the spec's ref-file encoding a ref file holds a single line
that is either a hash or a symref, and resolution treats a nonexistent
ref as `None`, so a missing or empty file reads as `none`. -/
def readRefFile (st : RepoState) (p : String) : Option RefContent :=
  (dictGet st.refs p).bind id

/-- Whether a ref file exists at this path (even if empty). -/
def refFileExists (st : RepoState) (p : String) : Bool :=
  (dictGet st.refs p).isSome

/-- The basenames returned by `Repository.refs()` (`SymRef(f.name)` for
every file under the refs directory). -/
def refsNames (st : RepoState) : List String :=
  st.refs.map (fun p => baseName p.1)

/-- Convert a ref-file content to a `resolve_ref` argument. -/
def argOfContent : RefContent → RefArg
  | RefContent.hashC h => RefArg.href h
  | RefContent.symC s => RefArg.sref s

/-- Convert a checkout target `Ref` to a `resolve_ref` argument. -/
def argOfRef : Ref → RefArg
  | Ref.hashR h => RefArg.href h
  | Ref.symR s => RefArg.sref s

/-- `Repository.resolve_ref`, with fuel for the unbounded recursion
through symbolic references (the Python source has no depth cap; an
exhausted fuel, `none`, models the recursion that never reaches a
result).  `some (Except.ok (some h))` is a resolved hash,
`some (Except.ok none)` is Python's `None` result for a missing ref. -/
def resolveRef (st : RepoState) :
    Nat → RefArg → Option (Except RErr (Option String))
  | 0, _ => none
  | fuel + 1, a =>
    if st.initialized = false then some (Except.error RErr.notFound)
    else
      match a with
      | RefArg.noneA => some (Except.ok none)
      | RefArg.href h => some (Except.ok (some h))
      | RefArg.sref s =>
        if pyUpper s == "HEAD" then
          match st.head with
          | none => some (Except.error RErr.headMissing)
          | some c => resolveRef st fuel (argOfContent c)
        else
          match readRefFile st s with
          | some (RefContent.hashC h) =>
            if strStartsWith s "tags/" then
              match dictGet st.store.tags h with
              | none => some (Except.error RErr.tagLoadFailed)
              | some tg => some (Except.ok (some tg.commit_hash))
            else resolveRef st fuel (RefArg.href h)
          | some (RefContent.symC s2) => resolveRef st fuel (RefArg.sref s2)
          | none => some (Except.ok none)
      | RefArg.sstr s =>
        if pyUpper s == "HEAD" || (refsNames st).contains s then
          resolveRef st fuel (RefArg.sref s)
        else if isHashFormat s then some (Except.ok (some s))
        else some (Except.error RErr.refInvalid)

/-- `Repository.head_commit`: resolve HEAD (a missing HEAD file raises
`RepositoryError` in `head_ref`). -/
def headCommit (st : RepoState) (fuel : Nat) :
    Option (Except RErr (Option String)) :=
  if st.initialized = false then some (Except.error RErr.notFound)
  else
    match st.head with
    | none => some (Except.error RErr.headMissing)
    | some c => resolveRef st fuel (argOfContent c)

/-- A diff endpoint: a ref or the live working directory (the only
directory path the facade ever passes). -/
inductive DiffTarget where
  | ref (r : RefArg)
  | path

/-- `Repository._resolve_target`: resolve an endpoint to (tree, hash)
plus the `tree_hashes` bindings it contributes to the shared cache. -/
def resolveTarget (st : RepoState) (fuel : Nat) :
    DiffTarget → Option (Except RErr (CafTree × String × List (String × CafTree)))
  | DiffTarget.path =>
    (match buildFsTree fuel st.workdir with
     | none => some (Except.error RErr.notADirectoryPath)
     | some (t, h, ms) => some (Except.ok (t, h, ms)))
  | DiffTarget.ref r =>
    match resolveRef st fuel r with
    | none => none
    | some (Except.error e) => some (Except.error e)
    | some (Except.ok none) => some (Except.error RErr.cannotResolveRef)
    | some (Except.ok (some ch)) =>
      match dictGet st.store.commits ch with
      | none => some (Except.error RErr.loadCommitFailed)
      | some c =>
        match dictGet st.store.trees c.tree_hash with
        | none => some (Except.error RErr.loadCommitFailed)
        | some t => some (Except.ok (t, c.tree_hash, [(c.tree_hash, t)]))

/-- `Repository.diff`: check both targets are given, resolve them into
the shared `tree_hashes` cache, and run the lockstep walk. -/
def repoDiff (st : RepoState) (fuel : Nat) (t1 t2 : Option DiffTarget) :
    Option (Except RErr (List Nat × List DiffNode)) :=
  if st.initialized = false then some (Except.error RErr.notFound)
  else
    match t1 with
    | none => some (Except.error RErr.valueErrTarget)
    | some tt1 =>
      match t2 with
      | none => some (Except.error RErr.valueErrTarget)
      | some tt2 =>
        match resolveTarget st fuel tt1 with
        | none => none
        | some (Except.error e) => some (Except.error e)
        | some (Except.ok (tr1, h1, add1)) =>
          match resolveTarget st fuel tt2 with
          | none => none
          | some (Except.error e) => some (Except.error e)
          | some (Except.ok (tr2, h2, add2)) =>
            diffTrees st.store fuel (dictSets (dictSets [] add1) add2)
              tr1 h1 tr2 h2

/-- `Repository.status` = `diff(head_commit, working_dir)`; a `None`
head commit makes `diff` raise `ValueError` on its first target. -/
def status (st : RepoState) (fuel : Nat) :
    Option (Except RErr (List Nat × List DiffNode)) :=
  if st.initialized = false then some (Except.error RErr.notFound)
  else
    match headCommit st fuel with
    | none => none
    | some (Except.error e) => some (Except.error e)
    | some (Except.ok hc) =>
      repoDiff st fuel (hc.map (fun h => DiffTarget.ref (RefArg.href h)))
        (some DiffTarget.path)

/-- `Repository._resolve_checkout_target`: hash format first, then an
explicit refs path, then a branch under `heads/`, then a tag under
`tags/`, else `None`. -/
def resolveCheckoutTarget (st : RepoState) (target : String) : Option Ref :=
  if isHashFormat target then some (Ref.hashR target)
  else if refFileExists st target then some (Ref.symR target)
  else if refFileExists st ("heads/" ++ target) then
    some (Ref.symR ("heads/" ++ target))
  else if refFileExists st ("tags/" ++ target) then
    some (Ref.symR ("tags/" ++ target))
  else none

/-- `Repository.branches()`: the names of the files under `heads/`. -/
def branchNames (st : RepoState) : List String :=
  st.refs.filterMap (fun p => stripPre "heads/" p.1)

/-- `Repository.delete_branch`. -/
def deleteBranch (st : RepoState) (branch : String) : Except RErr RepoState :=
  if st.initialized = false then Except.error RErr.notFound
  else if branch == "" then Except.error RErr.valueErrBranch
  else if (dictGet st.refs ("heads/" ++ branch)).isNone then
    Except.error RErr.branchMissing
  else if (branchNames st).length == 1 then Except.error RErr.lastBranch
  else
    Except.ok { st with refs := dictDel st.refs ("heads/" ++ branch) }

/-- One filesystem operation attempted by an applier, one constructor
per call site: `moveParentMkdir`/`move` from the move phase,
`removeFile`/`removeDir` from the removal phase, and the five write
calls (directory creation for added or modified trees, parent creation
and content writes for blobs). -/
inductive FsOp where
  | moveParentMkdir (p : List String)
  | move (src dst : List String)
  | removeFile (p : List String)
  | removeDir (p : List String)
  | addDirMkdir (p : List String)
  | addBlobParentMkdir (p : List String)
  | addBlobWrite (p : List String) (h : String)
  | modDirMkdir (p : List String)
  | modBlobParentMkdir (p : List String)
  | modBlobWrite (p : List String) (h : String)
deriving DecidableEq, Repr

/-- `relpath_for(node)`: climb the parent chain collecting non-empty
record names; the internal fuel (one more than the arena size) only
matters for parent cycles, which the arenas built by `diff` never
contain (Python would loop forever there). -/
def relpathAux (arena : List DiffNode) : Nat → Nat → List String → List String
  | 0, _, acc => acc
  | fuel + 1, i, acc =>
    let nd := getNode arena i
    match nd.parent with
    | none => acc
    | some p =>
      relpathAux arena fuel p
        (if nd.record.name == "" then acc else nd.record.name :: acc)

/-- Relative path of a diff node inside the forest. -/
def relpathFor (arena : List DiffNode) (i : Nat) : List String :=
  relpathAux arena (arena.length + 1) i []

/-- The flattening loop of `Repository._apply_diffs` (`stack =
list(diffs); while stack: node = stack.pop(); all_nodes.append(node);
stack.extend(node.children)`).  The list head plays the Python list
tail; fuel bounds the loop for arbitrary arenas. -/
def flattenNodes (arena : List DiffNode) :
    Nat → List Nat → List Nat → Option (List Nat)
  | 0, stack, acc =>
    match stack with
    | [] => some acc.reverse
    | _ :: _ => none
  | fuel + 1, stack, acc =>
    match stack with
    | [] => some acc.reverse
    | i :: rest =>
      flattenNodes arena fuel ((getNode arena i).children.reverse ++ rest)
        (i :: acc)

/-- Ascending stable sort by a natural-number key (Python
`sorted(..., key=...)`). -/
def sortAscBy {α : Type} (key : α → Nat) (l : List α) : List α :=
  sortByB (fun a b => decide (key a ≤ key b)) l

/-- Descending stable sort (Python `sorted(..., key=..., reverse=True)`:
equal keys keep their original order). -/
def sortDescBy {α : Type} (key : α → Nat) (l : List α) : List α :=
  sortByB (fun a b => decide (key b ≤ key a)) l

/-- Move phase of `Repository._apply_diffs`: iterate the `MovedFrom`
nodes (already sorted by destination depth), skip unpaired ones, check
the source exists, create the destination's parents, and rename.
Returns the operations attempted in order plus the outcome. -/
def movePhase (arena : List DiffNode) :
    List Nat → FSTree → List FsOp × Except RErr FSTree
  | [], fs => ([], Except.ok fs)
  | i :: rest, fs =>
    match (getNode arena i).link with
    | none => movePhase arena rest fs
    | some mt =>
      let oldRel := relpathFor arena mt
      let newRel := relpathFor arena i
      if (fsFind fs oldRel).isNone then ([], Except.error RErr.moveMissing)
      else
        match fsMkdirp fs newRel.dropLast with
        | none =>
          ([FsOp.moveParentMkdir newRel.dropLast],
           Except.error RErr.moveMkdirFailed)
        | some fs1 =>
          match fsMove fs1 oldRel newRel with
          | none =>
            ([FsOp.moveParentMkdir newRel.dropLast, FsOp.move oldRel newRel],
             Except.error RErr.moveFailed)
          | some fs2 =>
            let pr := movePhase arena rest fs2
            (FsOp.moveParentMkdir newRel.dropLast :: FsOp.move oldRel newRel ::
              pr.1, pr.2)

/-- Removal phase: iterate the `Removed` nodes (already sorted deepest
first), silently skipping paths that no longer exist; directories are
deleted recursively (`shutil.rmtree`), files unlinked. -/
def removePhase (arena : List DiffNode) :
    List Nat → FSTree → List FsOp × Except RErr FSTree
  | [], fs => ([], Except.ok fs)
  | i :: rest, fs =>
    let rel := relpathFor arena i
    match fsFind fs rel with
    | none => removePhase arena rest fs
    | some (FSTree.dir _) =>
      (match fsRemove fs rel with
       | none => ([FsOp.removeDir rel], Except.error RErr.removeFailed)
       | some fs1 =>
         let pr := removePhase arena rest fs1
         (FsOp.removeDir rel :: pr.1, pr.2))
    | some (FSTree.file _) =>
      match fsRemove fs rel with
      | none => ([FsOp.removeFile rel], Except.error RErr.removeFailed)
      | some fs1 =>
        let pr := removePhase arena rest fs1
        (FsOp.removeFile rel :: pr.1, pr.2)

/-- Added-directory loop of the write phase
(`(cwd / rel).mkdir(parents=True, exist_ok=True)`). -/
def addDirsPhase (arena : List DiffNode) :
    List Nat → FSTree → List FsOp × Except RErr FSTree
  | [], fs => ([], Except.ok fs)
  | i :: rest, fs =>
    let rel := relpathFor arena i
    match fsMkdirp fs rel with
    | none => ([FsOp.addDirMkdir rel], Except.error RErr.addMkdirFailed)
    | some fs1 =>
      let pr := addDirsPhase arena rest fs1
      (FsOp.addDirMkdir rel :: pr.1, pr.2)

/-- Added-blob loop of the write phase: ensure the parent directory,
read the blob from the object store and write it to the destination. -/
def addBlobsPhase (store : Store) (arena : List DiffNode) :
    List Nat → FSTree → List FsOp × Except RErr FSTree
  | [], fs => ([], Except.ok fs)
  | i :: rest, fs =>
    let rel := relpathFor arena i
    let h := (getNode arena i).record.hash
    match fsMkdirp fs rel.dropLast with
    | none =>
      ([FsOp.addBlobParentMkdir rel.dropLast], Except.error RErr.addMkdirFailed)
    | some fs1 =>
      if store.blobs.contains h then
        match fsWrite fs1 rel h with
        | none =>
          ([FsOp.addBlobParentMkdir rel.dropLast],
           Except.error RErr.addWriteFailed)
        | some fs2 =>
          let pr := addBlobsPhase store arena rest fs2
          (FsOp.addBlobParentMkdir rel.dropLast :: FsOp.addBlobWrite rel h ::
            pr.1, pr.2)
      else
        ([FsOp.addBlobParentMkdir rel.dropLast],
         Except.error RErr.addWriteFailed)

/-- `record_at_path`: walk the target root tree along a relative path
through `_load_tree` (shared `tree_cache`), returning the leaf record. -/
def recordAtPathGo (store : Store) :
    CafTree → List String → List (String × CafTree) →
    Except RErr (TreeRecord × List (String × CafTree))
  | t, [last], cache =>
    (match dictGet t.records last with
     | none => Except.error RErr.recordNotFound
     | some r => Except.ok (r, cache))
  | t, part :: rest, cache =>
    (match dictGet t.records part with
     | some r =>
       if r.type == TreeRecordType.tree then
         match dictGet cache r.hash with
         | some sub => recordAtPathGo store sub rest cache
         | none =>
           match dictGet store.trees r.hash with
           | some sub =>
             recordAtPathGo store sub rest (dictSet cache r.hash sub)
           | none => Except.error RErr.loadSubtreeFailed
       else Except.error RErr.pathNotDir
     | none => Except.error RErr.pathNotDir)
  | _, [], _ => Except.error RErr.emptyPath

/-- `record_at_path` including its empty-path check. -/
def recordAtPath (store : Store) (root : CafTree) (rel : List String)
    (cache : List (String × CafTree)) :
    Except RErr (TreeRecord × List (String × CafTree)) :=
  match rel with
  | [] => Except.error RErr.emptyPath
  | _ :: _ => recordAtPathGo store root rel cache

/-- Modified loop of the write phase: a `Modified` node carrying a TREE
record only re-creates the directory; one carrying a BLOB record
resolves the target hash by walking the target root tree and writes
that blob (raising when the target record is not a file — the type-swap
case). -/
def modPhase (store : Store) (arena : List DiffNode) (targetRoot : CafTree) :
    List Nat → List (String × CafTree) → FSTree →
    List FsOp × Except RErr FSTree
  | [], _, fs => ([], Except.ok fs)
  | i :: rest, cache, fs =>
    let nd := getNode arena i
    let rel := relpathFor arena i
    if nd.record.type == TreeRecordType.tree then
      match fsMkdirp fs rel with
      | none => ([FsOp.modDirMkdir rel], Except.error RErr.modMkdirFailed)
      | some fs1 =>
        let pr := modPhase store arena targetRoot rest cache fs1
        (FsOp.modDirMkdir rel :: pr.1, pr.2)
    else
      match fsMkdirp fs rel.dropLast with
      | none =>
        ([FsOp.modBlobParentMkdir rel.dropLast],
         Except.error RErr.modMkdirFailed)
      | some fs1 =>
        match recordAtPath store targetRoot rel cache with
        | Except.error e => ([FsOp.modBlobParentMkdir rel.dropLast], Except.error e)
        | Except.ok (newRec, cache1) =>
          if newRec.type != TreeRecordType.blob then
            ([FsOp.modBlobParentMkdir rel.dropLast],
             Except.error RErr.targetNotAFile)
          else if store.blobs.contains newRec.hash then
            match fsWrite fs1 rel newRec.hash with
            | none =>
              ([FsOp.modBlobParentMkdir rel.dropLast],
               Except.error RErr.modWriteFailed)
            | some fs2 =>
              let pr := modPhase store arena targetRoot rest cache1 fs2
              (FsOp.modBlobParentMkdir rel.dropLast ::
                FsOp.modBlobWrite rel newRec.hash :: pr.1, pr.2)
          else
            ([FsOp.modBlobParentMkdir rel.dropLast],
             Except.error RErr.modWriteFailed)

/-- The phase sequence of `Repository._apply_diffs` once the nodes are
bucketed: moves (destination depth ascending), removals (depth
descending), added directories, added blobs, and modifications (each
depth ascending), short-circuiting on the first error. -/
def applyBuckets (store : Store) (arena : List DiffNode) (troot : CafTree)
    (cache : List (String × CafTree)) (fs : FSTree)
    (movedFrom removed added modified : List Nat) :
    List FsOp × Except RErr FSTree :=
  let depth := fun i => (relpathFor arena i).length
  match movePhase arena (sortAscBy depth movedFrom) fs with
  | (ops1, Except.error e) => (ops1, Except.error e)
  | (ops1, Except.ok fs1) =>
    match removePhase arena (sortDescBy depth removed) fs1 with
    | (ops2, Except.error e) => (ops1 ++ ops2, Except.error e)
    | (ops2, Except.ok fs2) =>
      let addedDirs := added.filter
        (fun i => (getNode arena i).record.type == TreeRecordType.tree)
      let addedBlobs := added.filter
        (fun i => (getNode arena i).record.type == TreeRecordType.blob)
      match addDirsPhase arena (sortAscBy depth addedDirs) fs2 with
      | (ops3, Except.error e) => (ops1 ++ ops2 ++ ops3, Except.error e)
      | (ops3, Except.ok fs3) =>
        match addBlobsPhase store arena (sortAscBy depth addedBlobs) fs3 with
        | (ops4, Except.error e) =>
          (ops1 ++ ops2 ++ ops3 ++ ops4, Except.error e)
        | (ops4, Except.ok fs4) =>
          let pr5 := modPhase store arena troot (sortAscBy depth modified)
            cache fs4
          (ops1 ++ ops2 ++ ops3 ++ ops4 ++ pr5.1, pr5.2)

/-- `Repository._apply_diffs`: flatten the forest, bucket the nodes by
kind, check the target tree, then run the phases.  Returns the
operations attempted in order and the final filesystem or error. -/
def applyDiffs (store : Store) (fuel : Nat) (arena : List DiffNode)
    (tops : List Nat) (targetRoot : Option CafTree)
    (cache : List (String × CafTree)) (fs : FSTree) :
    Option (List FsOp × Except RErr FSTree) :=
  match flattenNodes arena fuel tops.reverse [] with
  | none => none
  | some flat =>
    let movedFrom := flat.filter (fun i => (getNode arena i).kind == DiffKind.movedFrom)
    let removed := flat.filter (fun i => (getNode arena i).kind == DiffKind.removed)
    let added := flat.filter (fun i => (getNode arena i).kind == DiffKind.added)
    let modified := flat.filter (fun i => (getNode arena i).kind == DiffKind.modified)
    match targetRoot with
    | none => some ([], Except.error RErr.noTargetTree)
    | some troot =>
      some (applyBuckets store arena troot cache fs movedFrom removed added
        modified)

/-- `checkout.traverse_post_order`: walk the forest in pre-order with
top-down path building (`cwd / record.name`, pathlib dropping empty
names), bucketing nodes into moves, removals and writes. -/
def traversePostOrder (arena : List DiffNode) :
    Nat → List (Nat × List String) →
    List (Nat × List String) → List (Nat × List String) →
    List (Nat × List String) →
    Option (List (Nat × List String) × List (Nat × List String) ×
            List (Nat × List String))
  | 0, stack, moves, removals, writes =>
    (match stack with
     | [] => some (moves.reverse, removals.reverse, writes.reverse)
     | _ :: _ => none)
  | fuel + 1, stack, moves, removals, writes =>
    match stack with
    | [] => some (moves.reverse, removals.reverse, writes.reverse)
    | (i, path) :: rest =>
      let nd := getNode arena i
      let childPairs := nd.children.map
        (fun c =>
          (c,
           if (getNode arena c).record.name == "" then path
           else path ++ [(getNode arena c).record.name]))
      match nd.kind with
      | DiffKind.added =>
        traversePostOrder arena fuel (childPairs ++ rest) moves removals
          ((i, path) :: writes)
      | DiffKind.modified =>
        traversePostOrder arena fuel (childPairs ++ rest) moves removals
          ((i, path) :: writes)
      | DiffKind.removed =>
        traversePostOrder arena fuel (childPairs ++ rest) moves
          ((i, path) :: removals) writes
      | DiffKind.movedFrom =>
        if nd.link.isSome then
          traversePostOrder arena fuel (childPairs ++ rest)
            ((i, path) :: moves) removals writes
        else
          traversePostOrder arena fuel (childPairs ++ rest) moves removals
            writes
      | _ =>
        traversePostOrder arena fuel (childPairs ++ rest) moves removals
          writes

/-- `checkout.move_sort_key`: the depth of the move's SOURCE path
(`get_moved_to_path(item[0].moved_from)`), not of its destination. -/
def moveSortKey (arena : List DiffNode) (m : Nat × List String) : Nat :=
  (relpathFor arena ((getNode arena m.1).link.getD 0)).length

/-- `checkout.handle_moves` after its in-place sort. -/
def handleMovesGo (arena : List DiffNode) (cwd : List String) :
    List (Nat × List String) → FSTree → List FsOp × Except RErr FSTree
  | [], fs => ([], Except.ok fs)
  | (i, destPath) :: rest, fs =>
    match (getNode arena i).link with
    | none => handleMovesGo arena cwd rest fs
    | some mt =>
      let srcRel := relpathFor arena mt
      let srcPath := cwd ++ srcRel
      if (fsFind fs srcPath).isNone then ([], Except.error RErr.moveMissing)
      else
        match fsMkdirp fs destPath.dropLast with
        | none =>
          ([FsOp.moveParentMkdir destPath.dropLast],
           Except.error RErr.moveMkdirFailed)
        | some fs1 =>
          match fsMove fs1 srcPath destPath with
          | none =>
            ([FsOp.moveParentMkdir destPath.dropLast,
              FsOp.move srcPath destPath], Except.error RErr.moveFailed)
          | some fs2 =>
            let pr := handleMovesGo arena cwd rest fs2
            (FsOp.moveParentMkdir destPath.dropLast ::
              FsOp.move srcPath destPath :: pr.1, pr.2)

/-- `checkout.handle_moves`: sort by source-path depth, then move. -/
def handleMoves (arena : List DiffNode) (cwd : List String)
    (moves : List (Nat × List String)) (fs : FSTree) :
    List FsOp × Except RErr FSTree :=
  handleMovesGo arena cwd (sortAscBy (moveSortKey arena) moves) fs

/-- `checkout.handle_removals`: sort by path depth descending, skip
missing paths, remove recursively. -/
def handleRemovalsGo :
    List (Nat × List String) → FSTree → List FsOp × Except RErr FSTree
  | [], fs => ([], Except.ok fs)
  | (_, path) :: rest, fs =>
    match fsFind fs path with
    | none => handleRemovalsGo rest fs
    | some (FSTree.dir _) =>
      (match fsRemove fs path with
       | none => ([FsOp.removeDir path], Except.error RErr.removeFailed)
       | some fs1 =>
         let pr := handleRemovalsGo rest fs1
         (FsOp.removeDir path :: pr.1, pr.2))
    | some (FSTree.file _) =>
      match fsRemove fs path with
      | none => ([FsOp.removeFile path], Except.error RErr.removeFailed)
      | some fs1 =>
        let pr := handleRemovalsGo rest fs1
        (FsOp.removeFile path :: pr.1, pr.2)

/-- `checkout.handle_removals` including its in-place sort. -/
def handleRemovals (removals : List (Nat × List String)) (fs : FSTree) :
    List FsOp × Except RErr FSTree :=
  handleRemovalsGo (sortDescBy (fun m => m.2.length) removals) fs

/-- `checkout.rewrite_modified_file`: walk the target tree along the
path relative to the working directory (plain `load_tree`, no cache),
require a BLOB leaf, ensure the parent directory, write the target
blob. -/
def rewriteModifiedFile (store : Store) (cwd : List String)
    (path : List String) (targetTree : Option CafTree) (fs : FSTree) :
    List FsOp × Except RErr FSTree :=
  let rel := path.drop cwd.length
  match targetTree with
  | none => ([], Except.error RErr.traversalNotFile)
  | some troot =>
    match walk troot rel with
    | Except.error e => ([], Except.error e)
    | Except.ok r =>
      if r.type != TreeRecordType.blob then
        ([], Except.error RErr.traversalNotFile)
      else
        match fsMkdir1 fs path.dropLast with
        | none =>
          ([FsOp.modBlobParentMkdir path.dropLast],
           Except.error RErr.modMkdirFailed)
        | some fs1 =>
          if store.blobs.contains r.hash then
            match fsWrite fs1 path r.hash with
            | none =>
              ([FsOp.modBlobParentMkdir path.dropLast],
               Except.error RErr.modWriteFailed)
            | some fs2 =>
              ([FsOp.modBlobParentMkdir path.dropLast,
                FsOp.modBlobWrite path r.hash], Except.ok fs2)
          else
            ([FsOp.modBlobParentMkdir path.dropLast],
             Except.error RErr.modWriteFailed)
where
  walk : CafTree → List String → Except RErr TreeRecord
    | t, [last] =>
      (match dictGet t.records last with
       | some r => Except.ok r
       | none => Except.error RErr.traversalNotFile)
    | t, part :: rest =>
      (match dictGet t.records part with
       | some r =>
         if r.type == TreeRecordType.tree then
           match dictGet store.trees r.hash with
           | some sub => walk sub rest
           | none => Except.error RErr.loadSubtreeFailed
         else Except.error RErr.pathNotDir
       | none => Except.error RErr.pathNotDir)
    | _, [] => Except.error RErr.traversalNotFile

/-- `checkout.handle_writes`: pre-order, no sorting; TREE records create
their directory, BLOB records ensure the parent then write (added) or
rewrite from the target tree (modified). -/
def handleWrites (store : Store) (arena : List DiffNode) (cwd : List String)
    (targetTree : Option CafTree) :
    List (Nat × List String) → FSTree → List FsOp × Except RErr FSTree
  | [], fs => ([], Except.ok fs)
  | (i, path) :: rest, fs =>
    let nd := getNode arena i
    if nd.record.type == TreeRecordType.tree then
      match fsMkdir1 fs path with
      | none => ([FsOp.addDirMkdir path], Except.error RErr.addMkdirFailed)
      | some fs1 =>
        let pr := handleWrites store arena cwd targetTree rest fs1
        (FsOp.addDirMkdir path :: pr.1, pr.2)
    else
      match fsMkdir1 fs path.dropLast with
      | none =>
        ([FsOp.addBlobParentMkdir path.dropLast],
         Except.error RErr.addMkdirFailed)
      | some fs1 =>
        if nd.kind == DiffKind.added then
          if store.blobs.contains nd.record.hash then
            match fsWrite fs1 path nd.record.hash with
            | none =>
              ([FsOp.addBlobParentMkdir path.dropLast],
               Except.error RErr.addWriteFailed)
            | some fs2 =>
              let pr := handleWrites store arena cwd targetTree rest fs2
              (FsOp.addBlobParentMkdir path.dropLast ::
                FsOp.addBlobWrite path nd.record.hash :: pr.1, pr.2)
          else
            ([FsOp.addBlobParentMkdir path.dropLast],
             Except.error RErr.addWriteFailed)
        else if nd.kind == DiffKind.modified then
          let pr := rewriteModifiedFile store cwd path targetTree fs1
          match pr.2 with
          | Except.error e =>
            (FsOp.addBlobParentMkdir path.dropLast :: pr.1, Except.error e)
          | Except.ok fs2 =>
            let pr2 := handleWrites store arena cwd targetTree rest fs2
            (FsOp.addBlobParentMkdir path.dropLast :: pr.1 ++ pr2.1, pr2.2)
        else
          let pr := handleWrites store arena cwd targetTree rest fs1
          (FsOp.addBlobParentMkdir path.dropLast :: pr.1, pr.2)

/-- `checkout.apply_diffs` (the applier variant in the checkout module):
traverse, then moves (sorted by SOURCE depth), removals, writes. -/
def checkoutApplyDiffs (store : Store) (fuel : Nat) (arena : List DiffNode)
    (tops : List Nat) (cwd : List String) (targetTree : Option CafTree)
    (fs : FSTree) : Option (List FsOp × Except RErr FSTree) :=
  let topPairs := tops.map
    (fun i =>
      (i,
       if (getNode arena i).record.name == "" then cwd
       else cwd ++ [(getNode arena i).record.name]))
  match traversePostOrder arena fuel topPairs [] [] [] with
  | none => none
  | some (moves, removals, writes) =>
    let pr1 := handleMoves arena cwd moves fs
    match pr1.2 with
    | Except.error e => some (pr1.1, Except.error e)
    | Except.ok fs1 =>
      let pr2 := handleRemovals removals fs1
      match pr2.2 with
      | Except.error e => some (pr1.1 ++ pr2.1, Except.error e)
      | Except.ok fs2 =>
        let pr3 := handleWrites store arena cwd targetTree writes fs2
        some (pr1.1 ++ pr2.1 ++ pr3.1, pr3.2)

/-- Tail of `Repository.checkout`: rewrite HEAD — symbolic when the
resolved target is a `heads/` SymRef, otherwise a direct (detached)
commit hash obtained through `resolve_ref`.  (`write_ref`, from the
missing `ref` module, is modelled from the spec as replacing the HEAD
file's content.) -/
def checkoutFinish (st : RepoState) (fuel : Nat) (fs2 : FSTree) :
    Ref → Option (Except RErr RepoState)
  | Ref.symR s =>
    if strStartsWith s "heads/" then
      some (Except.ok { st with workdir := fs2, head := some (RefContent.symC s) })
    else
      (match resolveRef st fuel (RefArg.sref s) with
       | none => none
       | some (Except.error e) => some (Except.error e)
       | some (Except.ok none) => some (Except.error RErr.cannotResolveCommit)
       | some (Except.ok (some h)) =>
         some (Except.ok
           { st with workdir := fs2, head := some (RefContent.hashC h) }))
  | Ref.hashR h =>
    match resolveRef st fuel (RefArg.href h) with
    | none => none
    | some (Except.error e) => some (Except.error e)
    | some (Except.ok none) => some (Except.error RErr.cannotResolveCommit)
    | some (Except.ok (some h1)) =>
      some (Except.ok
        { st with workdir := fs2, head := some (RefContent.hashC h1) })

/-- `Repository.checkout`: refuse a dirty working directory, resolve
the target with branch-over-tag precedence, build the target tree and
cache, diff HEAD against the target, apply, then rewrite HEAD. -/
def checkout (st : RepoState) (fuel : Nat) (target : String) :
    Option (Except RErr RepoState) :=
  if st.initialized = false then some (Except.error RErr.notFound)
  else
    match status st fuel with
    | none => none
    | some (Except.error e) => some (Except.error e)
    | some (Except.ok sr) =>
      match sr.1 with
      | _ :: _ => some (Except.error RErr.dirtyWorkdir)
      | [] =>
        match resolveCheckoutTarget st target with
        | none => some (Except.error RErr.cannotResolveTarget)
        | some rr =>
          match resolveTarget st fuel (DiffTarget.ref (argOfRef rr)) with
          | none => none
          | some (Except.error _) => some (Except.error RErr.targetTreeError)
          | some (Except.ok (targetTree, _, added)) =>
            match headCommit st fuel with
            | none => none
            | some (Except.error e) => some (Except.error e)
            | some (Except.ok hc) =>
              match repoDiff st fuel
                  (hc.map (fun h => DiffTarget.ref (RefArg.href h)))
                  (some (DiffTarget.ref (argOfRef rr))) with
              | none => none
              | some (Except.error e) => some (Except.error e)
              | some (Except.ok (tops, arena)) =>
                match applyDiffs st.store fuel arena tops (some targetTree)
                    (dictSets [] added) st.workdir with
                | none => none
                | some (_, Except.error e) => some (Except.error e)
                | some (_, Except.ok fs2) => checkoutFinish st fuel fs2 rr

/-- The positions and kinds of a diff forest: every node reached from
the top-level children, as (relative path, kind), in flattening order.
A node appearing twice in a children list contributes twice. -/
def forestPairs (fuel : Nat) (res : List Nat × List DiffNode) :
    List (List String × DiffKind) :=
  ((flattenNodes res.2 fuel res.1.reverse []).getD []).map
    (fun i => (relpathFor res.2 i, (getNode res.2 i).kind))

/-- Kind inversion of the diff-symmetry property: Added ↔ Removed,
MovedFrom ↔ MovedTo, Modified and the base kind stay fixed. -/
def invKind : DiffKind → DiffKind
  | DiffKind.added => DiffKind.removed
  | DiffKind.removed => DiffKind.added
  | DiffKind.movedFrom => DiffKind.movedTo
  | DiffKind.movedTo => DiffKind.movedFrom
  | DiffKind.modified => DiffKind.modified
  | DiffKind.plain => DiffKind.plain

/-- Two diff forests are structural inverses when they hold the same
node positions with inverted kinds (as multisets, so duplicated nodes
count). -/
abbrev structuralInverse (fuel : Nat) (f g : List Nat × List DiffNode) : Prop :=
  (forestPairs fuel g : Multiset (List String × DiffKind)) =
    (forestPairs fuel f : List (List String × DiffKind)).map
      (fun pk => (pk.1, invKind pk.2))

/-- Extract the value of a successful fuelled computation (the fallback
is only used when the computation did not succeed). -/
def getOkD {α : Type} (o : Option (Except RErr α)) (d : α) : α :=
  match o with
  | some (Except.ok r) => r
  | _ => d

/-- Destination-path depths of the rename operations of a run, in
order. -/
def moveDstLens (ops : List FsOp) : List Nat :=
  ops.filterMap
    (fun o => match o with | FsOp.move _ dst => some dst.length | _ => none)

/-- Path depths of the removal operations of a run, in order. -/
def removeLens (ops : List FsOp) : List Nat :=
  ops.filterMap
    (fun o =>
      match o with
      | FsOp.removeFile p => some p.length
      | FsOp.removeDir p => some p.length
      | _ => none)

/-- Phase of an operation: 0 for the move phase, 1 for removals, 2 for
writes of Added or Modified content. -/
def phaseRank : FsOp → Nat
  | FsOp.moveParentMkdir _ => 0
  | FsOp.move _ _ => 0
  | FsOp.removeFile _ => 1
  | FsOp.removeDir _ => 1
  | _ => 2

/-- Old tree of the C1 failing input: `m` and `old` both hold the blob
`H`. -/
def c1TreeA : CafTree :=
  ⟨[("m", ⟨TreeRecordType.blob, "H", "m"⟩),
    ("old", ⟨TreeRecordType.blob, "H", "old"⟩)]⟩

/-- New tree of the C1 failing input: `m` was modified (now `H2`) and
`H` reappears once under the new name `new`; the hypothetical
non-collapsing diff holds exactly one Added and one Removed with hash
`H` (plus a Modified at `m` whose old record also has hash `H`). -/
def c1TreeB : CafTree :=
  ⟨[("m", ⟨TreeRecordType.blob, "H2", "m"⟩),
    ("new", ⟨TreeRecordType.blob, "H", "new"⟩)]⟩

/-- The diff forest the code produces on the C1 failing input. -/
def c1Res : List Nat × List DiffNode :=
  getOkD (diffTrees emptyStore 10 [] c1TreeA "hashA" c1TreeB "hashB") ([], [])

/-- C1: the diff between `c1TreeA` and `c1TreeB` would contain exactly
one `Added` and one `Removed` with content hash `H`, so the claim
demands one `MovedFrom`/`MovedTo` pair each referenced exactly once and
the `Modified` node at `m` untouched.  Instead the in-place collapse
replaces every child of the parent whose record hash is `H`, so the
produced forest references the `MovedTo` at `old` twice and the
`Modified` node at `m` has vanished from it. -/
theorem diff_collapse_duplicates_moved_to :
    diffTrees emptyStore 10 [] c1TreeA "hashA" c1TreeB "hashB" =
      some (Except.ok c1Res) ∧
    forestPairs 20 c1Res =
      [(["new"], DiffKind.movedFrom), (["old"], DiffKind.movedTo),
       (["old"], DiffKind.movedTo)] ∧
    (forestPairs 20 c1Res).count (["old"], DiffKind.movedTo) = 2 ∧
    (forestPairs 20 c1Res).all (fun pk => pk.2 != DiffKind.modified) = true :=
  ⟨rfl, rfl, by decide, by decide⟩

/-- Old tree of the C6 failing input: one blob `H` at `r`. -/
def c6TreeA : CafTree := ⟨[("r", ⟨TreeRecordType.blob, "H", "r"⟩)]⟩

/-- New tree of the C6 failing input: the same blob `H` at the two
names `a1` and `a2`. -/
def c6TreeB : CafTree :=
  ⟨[("a1", ⟨TreeRecordType.blob, "H", "a1"⟩),
    ("a2", ⟨TreeRecordType.blob, "H", "a2"⟩)]⟩

/-- diff(A, B) on the C6 failing input. -/
def c6Fwd : List Nat × List DiffNode :=
  getOkD (diffTrees emptyStore 10 [] c6TreeA "hashA" c6TreeB "hashB") ([], [])

/-- diff(B, A) on the C6 failing input. -/
def c6Bwd : List Nat × List DiffNode :=
  getOkD (diffTrees emptyStore 10 [] c6TreeB "hashB" c6TreeA "hashA") ([], [])

/-- C6: diff(A, B) matches the move as `r → a1` and leaves `a2` Added,
but diff(B, A) matches it as `a2 → r` (the potential map is keyed by
hash and overwritten), and its collapse also duplicates the `MovedTo`
at `a2`; the two forests are not structural inverses. -/
theorem diff_not_symmetric_on_duplicate_hashes :
    diffTrees emptyStore 10 [] c6TreeA "hashA" c6TreeB "hashB" =
      some (Except.ok c6Fwd) ∧
    diffTrees emptyStore 10 [] c6TreeB "hashB" c6TreeA "hashA" =
      some (Except.ok c6Bwd) ∧
    forestPairs 20 c6Fwd =
      [(["a2"], DiffKind.added), (["a1"], DiffKind.movedFrom),
       (["r"], DiffKind.movedTo)] ∧
    forestPairs 20 c6Bwd =
      [(["r"], DiffKind.movedFrom), (["a2"], DiffKind.movedTo),
       (["a2"], DiffKind.movedTo)] ∧
    ¬ structuralInverse 20 c6Fwd c6Bwd :=
  ⟨rfl, rfl, rfl, rfl, by decide⟩

/-- Subtree of `d2f` in the first commit of the type-swap scenario. -/
def tIns1 : CafTree :=
  ⟨[("inside.txt", ⟨TreeRecordType.blob, "hashInside", "inside.txt"⟩)]⟩

/-- Root tree of the first type-swap commit: `d2f` is a directory,
`f2d` is a file. -/
def t3c1 : CafTree :=
  ⟨[("d2f", ⟨TreeRecordType.tree, hashObject tIns1, "d2f"⟩),
    ("f2d", ⟨TreeRecordType.blob, "hashF1", "f2d"⟩)]⟩

/-- Subtree of `f2d` in the second commit. -/
def tIns2 : CafTree :=
  ⟨[("new_inside.txt",
     ⟨TreeRecordType.blob, "hashNewInside", "new_inside.txt"⟩)]⟩

/-- Root tree of the second type-swap commit: `d2f` became a file,
`f2d` became a directory. -/
def t3c2 : CafTree :=
  ⟨[("d2f", ⟨TreeRecordType.blob, "hashF2", "d2f"⟩),
    ("f2d", ⟨TreeRecordType.tree, hashObject tIns2, "f2d"⟩)]⟩

/-- Hash of the first type-swap commit. -/
def c1h : String := String.mk (List.replicate 40 'a')

/-- Hash of the second type-swap commit. -/
def c2h : String := String.mk (List.replicate 40 'b')

/-- Repository in the clean state of the first type-swap commit, with
the second commit stored and reachable. -/
def stTypeSwap : RepoState :=
  { initialized := true
    head := some (RefContent.hashC c1h)
    refs := [("heads/main", some (RefContent.hashC c1h))]
    store :=
      { trees := [(hashObject t3c1, t3c1), (hashObject t3c2, t3c2)]
        commits :=
          [(c1h, ⟨hashObject t3c1, "User", "State 1", 0, none⟩),
           (c2h, ⟨hashObject t3c2, "User", "State 2", 1, some c1h⟩)]
        tags := []
        blobs := ["hashF1", "hashF2", "hashInside", "hashNewInside"] }
    workdir :=
      FSTree.dir
        [("d2f", FSTree.dir [("inside.txt", FSTree.file "hashInside")]),
         ("f2d", FSTree.file "hashF1")] }

/-- Root tree of a commit holding only the directory `d2f`. -/
def t3d1 : CafTree :=
  ⟨[("d2f", ⟨TreeRecordType.tree, hashObject tIns1, "d2f"⟩)]⟩

/-- Root tree of a commit where `d2f` became a file. -/
def t3d2 : CafTree :=
  ⟨[("d2f", ⟨TreeRecordType.blob, "hashF2", "d2f"⟩)]⟩

/-- Clean repository at the directory-form commit, with the file-form
commit stored and reachable. -/
def stTreeToBlob : RepoState :=
  { initialized := true
    head := some (RefContent.hashC c1h)
    refs := [("heads/main", some (RefContent.hashC c1h))]
    store :=
      { trees := [(hashObject t3d1, t3d1), (hashObject t3d2, t3d2)]
        commits :=
          [(c1h, ⟨hashObject t3d1, "User", "State 1", 0, none⟩),
           (c2h, ⟨hashObject t3d2, "User", "State 2", 1, some c1h⟩)]
        tags := []
        blobs := ["hashF2", "hashInside"] }
    workdir :=
      FSTree.dir
        [("d2f", FSTree.dir [("inside.txt", FSTree.file "hashInside")])] }

/-- What checkout of the file-form commit leaves behind. -/
def stTreeToBlobAfter : RepoState :=
  getOkD (checkout stTreeToBlob 40 c2h) { stTreeToBlob with workdir := FSTree.dir [] }

/-- C3: neither direction of a TREE/BLOB type swap removes the
conflicting object before writing.  Checking out the two-way-swapped
commit from a clean working directory raises
`RepositoryError('Target record is not a file')` when the `Modified`
leaf carrying the old BLOB record `f2d` looks the path up in the target
tree and finds a TREE; and for the lone TREE-to-BLOB swap the checkout
"succeeds" while writing nothing — the old directory (with its
contents) is still at `d2f` instead of the target file. -/
theorem checkout_type_swap_fails :
    checkout stTypeSwap 40 c2h = some (Except.error RErr.targetNotAFile) ∧
    checkout stTreeToBlob 40 c2h = some (Except.ok stTreeToBlobAfter) ∧
    fsFind stTreeToBlobAfter.workdir ["d2f"] =
      some (FSTree.dir [("inside.txt", FSTree.file "hashInside")]) :=
  ⟨rfl, rfl, rfl⟩

/-- A repository whose refs form a symbolic-reference cycle:
`heads/a` points at `heads/b` and `heads/b` back at `heads/a`. -/
def stCyclic : RepoState :=
  { initialized := true
    head := some (RefContent.hashC c1h)
    refs :=
      [("heads/a", some (RefContent.symC "heads/b")),
       ("heads/b", some (RefContent.symC "heads/a"))]
    store := emptyStore
    workdir := FSTree.dir [] }

/-- C5: on the cyclic refs `heads/a ↔ heads/b`, `resolve_ref` never
returns — no amount of fuel makes the recursion reach a result or a
reference error (the source has no depth cap; Python dies with
`RecursionError`, not a `RefError`). -/
theorem resolve_ref_cycle_diverges :
    ∀ fuel : Nat,
      resolveRef stCyclic fuel (RefArg.sref "heads/a") = none ∧
      resolveRef stCyclic fuel (RefArg.sref "heads/b") = none := by
  intro fuel
  induction fuel with
  | zero => exact ⟨rfl, rfl⟩
  | succ n ih =>
    constructor
    · show resolveRef stCyclic n (RefArg.sref "heads/b") = none
      exact ih.2
    · show resolveRef stCyclic n (RefArg.sref "heads/a") = none
      exact ih.1

/-- The type-swap repository with a locally modified `f2d`, so its
status (diff of HEAD against the working directory) is non-empty. -/
def stDirty : RepoState :=
  { stTypeSwap with
    workdir :=
      FSTree.dir
        [("d2f", FSTree.dir [("inside.txt", FSTree.file "hashInside")]),
         ("f2d", FSTree.file "hashDirty")] }

/-- C4: whenever `status` returns a non-empty diff, `checkout` fails
with the dirty-working-directory error; the failure happens before the
target is even resolved, so the working directory, HEAD and all refs
are untouched (the error path returns no new state). -/
theorem checkout_dirty_raises :
    ∀ (st : RepoState) (fuel : Nat) (target : String)
      (sr : List Nat × List DiffNode),
      status st fuel = some (Except.ok sr) →
      sr.1 ≠ [] →
      checkout st fuel target = some (Except.error RErr.dirtyWorkdir) := by
  intro st fuel target sr hs hne
  have hinit : st.initialized = true := by
    cases hb : st.initialized with
    | false => rw [status, hb] at hs; simp at hs
    | true => rfl
  obtain ⟨tops, arena⟩ := sr
  cases tops with
  | nil => simp at hne
  | cons t ts => simp [checkout, hinit, hs]

/-- Status of the dirty repository, for the witness. -/
def stDirtyStatus : List Nat × List DiffNode :=
  getOkD (status stDirty 40) ([], [])

/-- Witness for C4 at the concrete dirty repository. -/
theorem checkout_dirty_raises_witness :
    checkout stDirty 40 "feature" = some (Except.error RErr.dirtyWorkdir) :=
  checkout_dirty_raises stDirty 40 "feature" stDirtyStatus rfl (by decide)

/-- A 40-character hash-format string used as a branch and tag name. -/
def hashShapedName : String := String.mk (List.replicate 40 'f')

/-- Repository with both a branch and a tag named `hashShapedName`. -/
def stHashName : RepoState :=
  { initialized := true
    head := some (RefContent.hashC c1h)
    refs :=
      [("heads/" ++ hashShapedName, some (RefContent.hashC c1h)),
       ("tags/" ++ hashShapedName, some (RefContent.hashC c2h))]
    store := emptyStore
    workdir := FSTree.dir [] }

/-- C7 counterexample: a branch and a tag both exist under a name that
matches the hash format, yet checkout-target resolution selects the
direct hash, not the branch — refuting "for every name under which both
a branch and a tag exist, checkout(name) selects the branch". -/
theorem checkout_precedence_hash_beats_branch :
    refFileExists stHashName ("heads/" ++ hashShapedName) = true ∧
    refFileExists stHashName ("tags/" ++ hashShapedName) = true ∧
    resolveCheckoutTarget stHashName hashShapedName =
      some (Ref.hashR hashShapedName) ∧
    resolveCheckoutTarget stHashName hashShapedName ≠
      some (Ref.symR ("heads/" ++ hashShapedName)) :=
  ⟨rfl, rfl, rfl, by decide⟩

/-- C7 (amended): the checkout-target precedence — hash format first,
then an existing explicit refs path, then a branch, then a tag, else
failure; in particular a branch wins over a like-named tag whenever the
name is not hash-shaped and no explicit refs file shadows it. -/
theorem resolve_checkout_target_precedence :
    ∀ (st : RepoState) (name : String),
      (isHashFormat name = true →
        resolveCheckoutTarget st name = some (Ref.hashR name)) ∧
      (isHashFormat name = false → refFileExists st name = true →
        resolveCheckoutTarget st name = some (Ref.symR name)) ∧
      (isHashFormat name = false → refFileExists st name = false →
        refFileExists st ("heads/" ++ name) = true →
        resolveCheckoutTarget st name = some (Ref.symR ("heads/" ++ name))) ∧
      (isHashFormat name = false → refFileExists st name = false →
        refFileExists st ("heads/" ++ name) = false →
        refFileExists st ("tags/" ++ name) = true →
        resolveCheckoutTarget st name = some (Ref.symR ("tags/" ++ name))) ∧
      (isHashFormat name = false → refFileExists st name = false →
        refFileExists st ("heads/" ++ name) = false →
        refFileExists st ("tags/" ++ name) = false →
        resolveCheckoutTarget st name = none) := by
  intro st name
  refine ⟨?_, ?_, ?_, ?_, ?_⟩ <;> intros <;> simp [resolveCheckoutTarget, *]

/-- Repository exercising every precedence step for the C7 witness. -/
def stPrec : RepoState :=
  { initialized := true
    head := some (RefContent.hashC c1h)
    refs :=
      [("direct", some (RefContent.hashC c1h)),
       ("heads/br", some (RefContent.hashC c1h)),
       ("tags/br", some (RefContent.hashC c2h)),
       ("tags/tg", some (RefContent.hashC c2h))]
    store := emptyStore
    workdir := FSTree.dir [] }

/-- Witness for the C7 precedence theorem at concrete inputs (the
`br` case has both a branch and a tag and selects the branch). -/
theorem resolve_checkout_target_precedence_witness :
    resolveCheckoutTarget stPrec c1h = some (Ref.hashR c1h) ∧
    resolveCheckoutTarget stPrec "direct" = some (Ref.symR "direct") ∧
    resolveCheckoutTarget stPrec "br" = some (Ref.symR ("heads/" ++ "br")) ∧
    resolveCheckoutTarget stPrec "tg" = some (Ref.symR ("tags/" ++ "tg")) ∧
    resolveCheckoutTarget stPrec "ghost" = none :=
  ⟨(resolve_checkout_target_precedence stPrec c1h).1 (by decide),
   (resolve_checkout_target_precedence stPrec "direct").2.1 (by decide) rfl,
   (resolve_checkout_target_precedence stPrec "br").2.2.1 (by decide) rfl rfl,
   (resolve_checkout_target_precedence stPrec "tg").2.2.2.1 (by decide) rfl
     rfl rfl,
   (resolve_checkout_target_precedence stPrec "ghost").2.2.2.2 (by decide) rfl
     rfl rfl⟩

/-- Equal root hashes short-circuit the diff to the empty forest. -/
theorem diffTrees_same_hash (store : Store) (fuel : Nat)
    (cache : List (String × CafTree)) (t1 t2 : CafTree) (h : String) :
    diffTrees store fuel cache t1 h t2 h = some (Except.ok ([], [])) := by
  simp [diffTrees]

/-- C9: the equal-hash short-circuit of `Repository.diff`, and the
self-diff consequence — whenever both endpoints of `diff` are the same
target and the call succeeds, the resulting forest is empty. -/
theorem diff_same_hash_empty :
    (∀ (store : Store) (fuel : Nat) (cache : List (String × CafTree))
       (t1 t2 : CafTree) (h : String),
       diffTrees store fuel cache t1 h t2 h = some (Except.ok ([], []))) ∧
    (∀ (st : RepoState) (fuel : Nat) (t : DiffTarget)
       (r : List Nat × List DiffNode),
       repoDiff st fuel (some t) (some t) = some (Except.ok r) →
       r.1 = []) := by
  constructor
  · exact diffTrees_same_hash
  · intro st fuel t r h
    unfold repoDiff at h
    split at h
    · simp at h
    · dsimp only at h
      cases hrt : resolveTarget st fuel t with
      | none => rw [hrt] at h; simp at h
      | some res =>
        rw [hrt] at h
        cases res with
        | error e => simp at h
        | ok v =>
          obtain ⟨tr1, h1, add1⟩ := v
          simp only at h
          rw [diffTrees_same_hash] at h
          simp at h
          rw [← h]

/-- Self-diff of the type-swap repository's HEAD commit, for the C9
witness (the fallback value has a non-empty forest, so the equation
only holds because the diff succeeded and was empty). -/
def c9Res : List Nat × List DiffNode :=
  getOkD
    (repoDiff stTypeSwap 40 (some (DiffTarget.ref (RefArg.href c1h)))
      (some (DiffTarget.ref (RefArg.href c1h))))
    ([1000], [])

/-- Witness for C9 at a concrete repository. -/
theorem diff_same_hash_empty_witness : c9Res.1 = [] :=
  diff_same_hash_empty.2 stTypeSwap 40
    (DiffTarget.ref (RefArg.href c1h)) c9Res rfl

/-- C10: deleting the only branch of a repository is refused with a
`RepositoryError` before the branch file is touched (the error path
returns no new state, so the branch file still exists). -/
theorem delete_last_branch_refused :
    ∀ (st : RepoState) (b : String),
      st.initialized = true → b ≠ "" →
      branchNames st = [b] →
      deleteBranch st b = Except.error RErr.lastBranch := by
  intro st b hinit hb hbn
  have hmem : ∃ p ∈ st.refs, stripPre "heads/" p.1 = some b := by
    have hb' : b ∈ branchNames st := by rw [hbn]; exact List.mem_singleton_self b
    simpa [branchNames, List.mem_filterMap] using hb'
  obtain ⟨p, hpmem, hpstrip⟩ := hmem
  have hkey : p.1 = "heads/" ++ b := stripPre_eq hpstrip
  have hfind : (List.find? (fun q => q.1 == "heads/" ++ b) st.refs).isSome
      = true := by
    rw [List.find?_isSome]
    exact ⟨p, hpmem, by simp [hkey]⟩
  have hsome : (dictGet st.refs ("heads/" ++ b)).isSome = true := by
    rw [dictGet]
    obtain ⟨q, hq⟩ := Option.isSome_iff_exists.mp hfind
    rw [hq]
    rfl
  have hne : (b == "") = false := by
    cases hbe : b == "" with
    | false => rfl
    | true => exact absurd (by simpa using hbe) hb
  obtain ⟨v, hv⟩ := Option.isSome_iff_exists.mp hsome
  simp [deleteBranch, hinit, hne, hv, hbn]

/-- A repository with exactly one branch. -/
def stOneBranch : RepoState :=
  { initialized := true
    head := some (RefContent.symC "heads/main")
    refs :=
      [("heads/main", some (RefContent.hashC c1h)),
       ("tags/v1", some (RefContent.hashC c2h))]
    store := emptyStore
    workdir := FSTree.dir [] }

/-- Witness for C10 at the concrete one-branch repository. -/
theorem delete_last_branch_refused_witness :
    deleteBranch stOneBranch "main" = Except.error RErr.lastBranch :=
  delete_last_branch_refused stOneBranch "main" rfl (by decide) rfl

/-- A successful checkout went through the HEAD-rewriting tail with the
ref produced by `_resolve_checkout_target`. -/
theorem checkout_ok_finish :
    ∀ (st : RepoState) (fuel : Nat) (target : String) (st' : RepoState),
      checkout st fuel target = some (Except.ok st') →
      ∃ rr fs2, resolveCheckoutTarget st target = some rr ∧
        checkoutFinish st fuel fs2 rr = some (Except.ok st') := by
  intro st fuel target st' h
  unfold checkout at h
  repeat' split at h
  all_goals
    first
      | exact absurd h (by simp)
      | exact ⟨_, _, by assumption, h⟩

/-- C8: head semantics of a successful checkout.  Checking out a name
resolved as a branch leaves HEAD symbolic to `heads/<name>`; checking
out a hash-format target leaves HEAD a direct hash to it; checking out
a name resolved as a tag leaves HEAD a direct hash to the commit the
tag object references (detached). -/
theorem checkout_head_semantics :
    (∀ (st : RepoState) (fuel : Nat) (target : String) (st' : RepoState),
       checkout st fuel target = some (Except.ok st') →
       isHashFormat target = true →
       st'.head = some (RefContent.hashC target)) ∧
    (∀ (st : RepoState) (fuel : Nat) (target : String) (st' : RepoState),
       checkout st fuel target = some (Except.ok st') →
       isHashFormat target = false →
       refFileExists st target = false →
       refFileExists st ("heads/" ++ target) = true →
       strStartsWith ("heads/" ++ target) "heads/" = true →
       st'.head = some (RefContent.symC ("heads/" ++ target))) ∧
    (∀ (st : RepoState) (fuel : Nat) (target : String) (st' : RepoState)
       (th : String) (tg : TagObj),
       checkout st fuel target = some (Except.ok st') →
       isHashFormat target = false →
       refFileExists st target = false →
       refFileExists st ("heads/" ++ target) = false →
       readRefFile st ("tags/" ++ target) = some (RefContent.hashC th) →
       strStartsWith ("tags/" ++ target) "heads/" = false →
       (pyUpper ("tags/" ++ target) == "HEAD") = false →
       strStartsWith ("tags/" ++ target) "tags/" = true →
       dictGet st.store.tags th = some tg →
       st'.head = some (RefContent.hashC tg.commit_hash)) := by
  refine ⟨?_, ?_, ?_⟩
  · intro st fuel target st' h hHash
    obtain ⟨rr, fs2, hrr, hFin⟩ := checkout_ok_finish st fuel target st' h
    rw [resolveCheckoutTarget] at hrr
    simp [hHash] at hrr
    subst hrr
    cases fuel with
    | zero => simp [checkoutFinish, resolveRef] at hFin
    | succ n =>
      cases hinit : st.initialized with
      | false => simp [checkoutFinish, resolveRef, hinit] at hFin
      | true =>
        simp [checkoutFinish, resolveRef, hinit] at hFin
        rw [← hFin]
  · intro st fuel target st' h hHash hExp hBr hSw
    obtain ⟨rr, fs2, hrr, hFin⟩ := checkout_ok_finish st fuel target st' h
    rw [resolveCheckoutTarget] at hrr
    simp [hHash, hExp, hBr] at hrr
    subst hrr
    simp [checkoutFinish, hSw] at hFin
    rw [← hFin]
  · intro st fuel target st' th tg h hHash hExp hBr hTagRef hSw hUp hSw2 hTag
    obtain ⟨rr, fs2, hrr, hFin⟩ := checkout_ok_finish st fuel target st' h
    have hTagExists : refFileExists st ("tags/" ++ target) = true := by
      rw [refFileExists]
      rw [readRefFile] at hTagRef
      cases hd : dictGet st.refs ("tags/" ++ target) with
      | none => rw [hd] at hTagRef; simp at hTagRef
      | some v => rfl
    rw [resolveCheckoutTarget] at hrr
    simp [hHash, hExp, hBr, hTagExists] at hrr
    subst hrr
    cases fuel with
    | zero => simp [checkoutFinish, hSw, resolveRef] at hFin
    | succ n =>
      cases hinit : st.initialized with
      | false => simp [checkoutFinish, hSw, resolveRef, hinit] at hFin
      | true =>
        simp [checkoutFinish, hSw, resolveRef, hinit, hUp, hTagRef, hSw2,
          hTag] at hFin
        rw [← hFin]

/-- The type-swap repository on a symbolic HEAD with a `feature` branch
pointing at the same commit (so checkout succeeds with an empty diff). -/
def stBranch : RepoState :=
  { stTypeSwap with
    head := some (RefContent.symC "heads/main")
    refs :=
      [("heads/main", some (RefContent.hashC c1h)),
       ("heads/feature", some (RefContent.hashC c1h))] }

/-- Result of checking out the branch `feature`. -/
def stBranchAfter : RepoState := getOkD (checkout stBranch 40 "feature") stBranch

/-- Result of checking out the commit hash directly. -/
def stHashAfter : RepoState := getOkD (checkout stTypeSwap 40 c1h) stDirty

/-- A tag object hash for the tag checkout witness. -/
def tagObjHash : String := "tagobjecthash"

/-- The type-swap repository with an annotated tag `v1` whose tag
object references the HEAD commit. -/
def stTag : RepoState :=
  { stTypeSwap with
    refs :=
      [("heads/main", some (RefContent.hashC c1h)),
       ("tags/v1", some (RefContent.hashC tagObjHash))]
    store :=
      { stTypeSwap.store with
        tags := [(tagObjHash, ⟨"v1", c1h, "User", "Release", 0⟩)] } }

/-- Result of checking out the tag `v1`. -/
def stTagAfter : RepoState := getOkD (checkout stTag 40 "v1") stDirty

/-- Witness for C8: the three head outcomes at concrete repositories. -/
theorem checkout_head_semantics_witness :
    stBranchAfter.head = some (RefContent.symC ("heads/" ++ "feature")) ∧
    stHashAfter.head = some (RefContent.hashC c1h) ∧
    stTagAfter.head = some (RefContent.hashC
      (TagObj.mk "v1" c1h "User" "Release" 0).commit_hash) :=
  ⟨checkout_head_semantics.2.1 stBranch 40 "feature" stBranchAfter rfl
     (by decide) rfl rfl (by decide),
   checkout_head_semantics.1 stTypeSwap 40 c1h stHashAfter rfl (by decide),
   checkout_head_semantics.2.2 stTag 40 "v1" stTagAfter tagObjHash
     (TagObj.mk "v1" c1h "User" "Release" 0) rfl (by decide) rfl rfl rfl
     (by decide) (by decide) (by decide) rfl⟩

/-- The ascending sort produces a list pairwise ordered by its key. -/
theorem pairwise_sortAscBy {α : Type} (key : α → Nat) (l : List α) :
    List.Pairwise (fun a b => key a ≤ key b) (sortAscBy key l) := by
  have h := pairwise_sortByB (fun a b => decide (key a ≤ key b))
    (fun a b => by
      rcases Nat.le_total (key a) (key b) with h | h
      · exact Or.inl (by simpa using h)
      · exact Or.inr (by simpa using h))
    (fun a b c hab hbc => by
      simp only [decide_eq_true_eq] at hab hbc ⊢
      omega) l
  exact h.imp (fun hx => by simpa using hx)

/-- The descending sort produces a list pairwise ordered downward. -/
theorem pairwise_sortDescBy {α : Type} (key : α → Nat) (l : List α) :
    List.Pairwise (fun a b => key b ≤ key a) (sortDescBy key l) := by
  have h := pairwise_sortByB (fun a b => decide (key b ≤ key a))
    (fun a b => by
      rcases Nat.le_total (key b) (key a) with h | h
      · exact Or.inl (by simpa using h)
      · exact Or.inr (by simpa using h))
    (fun a b c hab hbc => by
      simp only [decide_eq_true_eq] at hab hbc ⊢
      omega) l
  exact h.imp (fun hx => by simpa using hx)

/-- Operations emitted by the move phase. -/
def isMoveOp : FsOp → Bool
  | FsOp.moveParentMkdir _ => true
  | FsOp.move _ _ => true
  | _ => false

/-- Operations emitted by the removal phase. -/
def isRemoveOp : FsOp → Bool
  | FsOp.removeFile _ => true
  | FsOp.removeDir _ => true
  | _ => false

/-- Operations emitted by the write phase. -/
def isWriteOp : FsOp → Bool
  | FsOp.addDirMkdir _ => true
  | FsOp.addBlobParentMkdir _ => true
  | FsOp.addBlobWrite _ _ => true
  | FsOp.modDirMkdir _ => true
  | FsOp.modBlobParentMkdir _ => true
  | FsOp.modBlobWrite _ _ => true
  | _ => false

theorem movePhase_ops (arena : List DiffNode) :
    ∀ (l : List Nat) (fs : FSTree) (o : FsOp),
      o ∈ (movePhase arena l fs).1 → isMoveOp o = true := by
  intro l
  induction l with
  | nil => intro fs o ho; simp [movePhase] at ho
  | cons i rest ih =>
    intro fs o ho
    unfold movePhase at ho
    split at ho
    · exact ih _ o ho
    · dsimp only at ho
      split at ho
      · simp at ho
      · split at ho
        · simp at ho
          subst ho
          rfl
        · split at ho
          · rcases List.mem_cons.mp ho with h1 | h1
            · subst h1; rfl
            · simp at h1; subst h1; rfl
          · rcases List.mem_cons.mp ho with h1 | h1
            · subst h1; rfl
            · rcases List.mem_cons.mp h1 with h2 | h2
              · subst h2; rfl
              · exact ih _ o h2

theorem removePhase_ops (arena : List DiffNode) :
    ∀ (l : List Nat) (fs : FSTree) (o : FsOp),
      o ∈ (removePhase arena l fs).1 → isRemoveOp o = true := by
  intro l
  induction l with
  | nil => intro fs o ho; simp [removePhase] at ho
  | cons i rest ih =>
    intro fs o ho
    unfold removePhase at ho
    dsimp only at ho
    split at ho
    · exact ih _ o ho
    · split at ho
      · simp at ho; subst ho; rfl
      · rcases List.mem_cons.mp ho with h1 | h1
        · subst h1; rfl
        · exact ih _ o h1
    · split at ho
      · simp at ho; subst ho; rfl
      · rcases List.mem_cons.mp ho with h1 | h1
        · subst h1; rfl
        · exact ih _ o h1

theorem addDirsPhase_ops (arena : List DiffNode) :
    ∀ (l : List Nat) (fs : FSTree) (o : FsOp),
      o ∈ (addDirsPhase arena l fs).1 → isWriteOp o = true := by
  intro l
  induction l with
  | nil => intro fs o ho; simp [addDirsPhase] at ho
  | cons i rest ih =>
    intro fs o ho
    unfold addDirsPhase at ho
    dsimp only at ho
    split at ho
    · simp at ho; subst ho; rfl
    · rcases List.mem_cons.mp ho with h1 | h1
      · subst h1; rfl
      · exact ih _ o h1

theorem addBlobsPhase_ops (store : Store) (arena : List DiffNode) :
    ∀ (l : List Nat) (fs : FSTree) (o : FsOp),
      o ∈ (addBlobsPhase store arena l fs).1 → isWriteOp o = true := by
  intro l
  induction l with
  | nil => intro fs o ho; simp [addBlobsPhase] at ho
  | cons i rest ih =>
    intro fs o ho
    unfold addBlobsPhase at ho
    dsimp only at ho
    split at ho
    · simp at ho; subst ho; rfl
    · split at ho
      · split at ho
        · simp at ho; subst ho; rfl
        · rcases List.mem_cons.mp ho with h1 | h1
          · subst h1; rfl
          · rcases List.mem_cons.mp h1 with h2 | h2
            · subst h2; rfl
            · exact ih _ o h2
      · simp at ho; subst ho; rfl

theorem modPhase_ops (store : Store) (arena : List DiffNode)
    (troot : CafTree) :
    ∀ (l : List Nat) (cache : List (String × CafTree)) (fs : FSTree)
      (o : FsOp),
      o ∈ (modPhase store arena troot l cache fs).1 → isWriteOp o = true := by
  intro l
  induction l with
  | nil => intro cache fs o ho; simp [modPhase] at ho
  | cons i rest ih =>
    intro cache fs o ho
    unfold modPhase at ho
    dsimp only at ho
    split at ho
    · split at ho
      · simp at ho; subst ho; rfl
      · rcases List.mem_cons.mp ho with h1 | h1
        · subst h1; rfl
        · exact ih _ _ o h1
    · split at ho
      · simp at ho; subst ho; rfl
      · split at ho
        · simp at ho; subst ho; rfl
        · split at ho
          · simp at ho; subst ho; rfl
          · split at ho
            · split at ho
              · simp at ho; subst ho; rfl
              · rcases List.mem_cons.mp ho with h1 | h1
                · subst h1; rfl
                · rcases List.mem_cons.mp h1 with h2 | h2
                  · subst h2; rfl
                  · exact ih _ _ o h2
            · simp at ho; subst ho; rfl

theorem movePhase_dst_mem (arena : List DiffNode) :
    ∀ (l : List Nat) (fs : FSTree) (x : Nat),
      x ∈ moveDstLens (movePhase arena l fs).1 →
      ∃ i ∈ l, x = (relpathFor arena i).length := by
  intro l
  induction l with
  | nil => intro fs x hx; simp [movePhase, moveDstLens] at hx
  | cons i rest ih =>
    intro fs x hx
    unfold movePhase at hx
    split at hx
    · obtain ⟨j, hj, he⟩ := ih _ x hx
      exact ⟨j, List.mem_cons_of_mem _ hj, he⟩
    · dsimp only at hx
      split at hx
      · simp [moveDstLens] at hx
      · split at hx
        · simp [moveDstLens] at hx
        · split at hx
          · simp [moveDstLens] at hx
            exact ⟨i, List.mem_cons_self i rest, hx⟩
          · simp only [moveDstLens, List.filterMap_cons] at hx
            rcases List.mem_cons.mp hx with h1 | h1
            · exact ⟨i, List.mem_cons_self i rest, h1⟩
            · obtain ⟨j, hj, he⟩ := ih _ x h1
              exact ⟨j, List.mem_cons_of_mem _ hj, he⟩

theorem movePhase_sorted (arena : List DiffNode) :
    ∀ (l : List Nat) (fs : FSTree),
      List.Pairwise
        (fun i j => (relpathFor arena i).length ≤ (relpathFor arena j).length)
        l →
      List.Pairwise (fun a b : Nat => a ≤ b)
        (moveDstLens (movePhase arena l fs).1) := by
  intro l
  induction l with
  | nil => intro fs hp; simp [movePhase, moveDstLens]
  | cons i rest ih =>
    intro fs hp
    rcases List.pairwise_cons.mp hp with ⟨hhead, htail⟩
    unfold movePhase
    split
    · exact ih _ htail
    · dsimp only
      split
      · simp [moveDstLens]
      · split
        · simp [moveDstLens]
        · split
          · simp [moveDstLens]
          · simp only [moveDstLens, List.filterMap_cons]
            refine List.pairwise_cons.mpr ⟨?_, ih _ htail⟩
            intro x hx
            obtain ⟨j, hj, he⟩ := movePhase_dst_mem arena rest _ x hx
            rw [he]
            exact hhead j hj

theorem removePhase_len_mem (arena : List DiffNode) :
    ∀ (l : List Nat) (fs : FSTree) (x : Nat),
      x ∈ removeLens (removePhase arena l fs).1 →
      ∃ i ∈ l, x = (relpathFor arena i).length := by
  intro l
  induction l with
  | nil => intro fs x hx; simp [removePhase, removeLens] at hx
  | cons i rest ih =>
    intro fs x hx
    unfold removePhase at hx
    dsimp only at hx
    split at hx
    · obtain ⟨j, hj, he⟩ := ih _ x hx
      exact ⟨j, List.mem_cons_of_mem _ hj, he⟩
    · split at hx
      · simp [removeLens] at hx
        exact ⟨i, List.mem_cons_self i rest, hx⟩
      · simp only [removeLens, List.filterMap_cons] at hx
        rcases List.mem_cons.mp hx with h1 | h1
        · exact ⟨i, List.mem_cons_self i rest, h1⟩
        · obtain ⟨j, hj, he⟩ := ih _ x h1
          exact ⟨j, List.mem_cons_of_mem _ hj, he⟩
    · split at hx
      · simp [removeLens] at hx
        exact ⟨i, List.mem_cons_self i rest, hx⟩
      · simp only [removeLens, List.filterMap_cons] at hx
        rcases List.mem_cons.mp hx with h1 | h1
        · exact ⟨i, List.mem_cons_self i rest, h1⟩
        · obtain ⟨j, hj, he⟩ := ih _ x h1
          exact ⟨j, List.mem_cons_of_mem _ hj, he⟩

theorem removePhase_sorted (arena : List DiffNode) :
    ∀ (l : List Nat) (fs : FSTree),
      List.Pairwise
        (fun i j => (relpathFor arena j).length ≤ (relpathFor arena i).length)
        l →
      List.Pairwise (fun a b : Nat => b ≤ a)
        (removeLens (removePhase arena l fs).1) := by
  intro l
  induction l with
  | nil => intro fs hp; simp [removePhase, removeLens]
  | cons i rest ih =>
    intro fs hp
    rcases List.pairwise_cons.mp hp with ⟨hhead, htail⟩
    unfold removePhase
    dsimp only
    split
    · exact ih _ htail
    · split
      · simp [removeLens]
      · simp only [removeLens, List.filterMap_cons]
        refine List.pairwise_cons.mpr ⟨?_, ih _ htail⟩
        intro x hx
        obtain ⟨j, hj, he⟩ := removePhase_len_mem arena rest _ x hx
        rw [he]
        exact hhead j hj
    · split
      · simp [removeLens]
      · simp only [removeLens, List.filterMap_cons]
        refine List.pairwise_cons.mpr ⟨?_, ih _ htail⟩
        intro x hx
        obtain ⟨j, hj, he⟩ := removePhase_len_mem arena rest _ x hx
        rw [he]
        exact hhead j hj

theorem moveDstLens_nil_of_not_move (ops : List FsOp)
    (h : ∀ o ∈ ops, isMoveOp o = false) : moveDstLens ops = [] := by
  rw [moveDstLens, List.filterMap_eq_nil_iff]
  intro o ho
  have hk := h o ho
  cases o <;> simp_all [isMoveOp]

theorem removeLens_nil_of_not_remove (ops : List FsOp)
    (h : ∀ o ∈ ops, isRemoveOp o = false) : removeLens ops = [] := by
  rw [removeLens, List.filterMap_eq_nil_iff]
  intro o ho
  have hk := h o ho
  cases o <;> simp_all [isRemoveOp]

theorem not_move_of_remove {o : FsOp} (h : isRemoveOp o = true) :
    isMoveOp o = false := by
  cases o <;> simp_all [isMoveOp, isRemoveOp]

theorem not_move_of_write {o : FsOp} (h : isWriteOp o = true) :
    isMoveOp o = false := by
  cases o <;> simp_all [isMoveOp, isWriteOp]

theorem not_remove_of_move {o : FsOp} (h : isMoveOp o = true) :
    isRemoveOp o = false := by
  cases o <;> simp_all [isMoveOp, isRemoveOp]

theorem not_remove_of_write {o : FsOp} (h : isWriteOp o = true) :
    isRemoveOp o = false := by
  cases o <;> simp_all [isRemoveOp, isWriteOp]

theorem rank_of_move {o : FsOp} (h : isMoveOp o = true) : phaseRank o = 0 := by
  cases o <;> simp_all [isMoveOp, phaseRank]

theorem rank_of_remove {o : FsOp} (h : isRemoveOp o = true) :
    phaseRank o = 1 := by
  cases o <;> simp_all [isRemoveOp, phaseRank]

theorem rank_of_write {o : FsOp} (h : isWriteOp o = true) :
    phaseRank o = 2 := by
  cases o <;> simp_all [isWriteOp, phaseRank]

theorem pairwise_rank_const (ops : List FsOp) (c : Nat)
    (h : ∀ o ∈ ops, phaseRank o = c) :
    List.Pairwise (fun a b => phaseRank a ≤ phaseRank b) ops := by
  induction ops with
  | nil => exact List.Pairwise.nil
  | cons a l ih =>
    refine List.pairwise_cons.mpr
      ⟨?_, ih (fun o ho => h o (List.mem_cons_of_mem _ ho))⟩
    intro y hy
    rw [h a (List.mem_cons_self _ _), h y (List.mem_cons_of_mem _ hy)]

/-- Concatenating phase segments of nondecreasing ranks stays
rank-ordered. -/
theorem pairwise_rank_append (xs ys : List FsOp)
    (hx : List.Pairwise (fun a b => phaseRank a ≤ phaseRank b) xs)
    (hy : List.Pairwise (fun a b => phaseRank a ≤ phaseRank b) ys)
    (hxy : ∀ x ∈ xs, ∀ y ∈ ys, phaseRank x ≤ phaseRank y) :
    List.Pairwise (fun a b => phaseRank a ≤ phaseRank b) (xs ++ ys) :=
  List.pairwise_append.mpr ⟨hx, hy, hxy⟩

/-- All three ordering properties of one `_apply_diffs` run, as a
function of the bucketed nodes. -/
theorem applyBuckets_phase_order (store : Store) (arena : List DiffNode)
    (troot : CafTree) (cache : List (String × CafTree)) (fs : FSTree)
    (mf rm ad md : List Nat) :
    List.Pairwise (fun a b => phaseRank a ≤ phaseRank b)
      (applyBuckets store arena troot cache fs mf rm ad md).1 ∧
    List.Pairwise (fun a b : Nat => a ≤ b)
      (moveDstLens (applyBuckets store arena troot cache fs mf rm ad md).1) ∧
    List.Pairwise (fun a b : Nat => b ≤ a)
      (removeLens (applyBuckets store arena troot cache fs mf rm ad md).1) := by
  unfold applyBuckets
  dsimp only
  rcases h1 : movePhase arena
      (sortAscBy (fun i => (relpathFor arena i).length) mf) fs with ⟨ops1, r1⟩
  have hops1 : ∀ o ∈ ops1, isMoveOp o = true := by
    intro o ho
    exact movePhase_ops arena _ fs o (by rw [h1]; exact ho)
  have hsort1 : List.Pairwise (fun a b : Nat => a ≤ b) (moveDstLens ops1) := by
    have hmp := movePhase_sorted arena _ fs
      (pairwise_sortAscBy (fun i => (relpathFor arena i).length) mf)
    rw [h1] at hmp
    exact hmp
  have hrank1 : List.Pairwise (fun a b => phaseRank a ≤ phaseRank b) ops1 :=
    pairwise_rank_const ops1 0 (fun o ho => rank_of_move (hops1 o ho))
  have hrl1 : removeLens ops1 = [] :=
    removeLens_nil_of_not_remove ops1
      (fun o ho => not_remove_of_move (hops1 o ho))
  cases r1 with
  | error e =>
    dsimp only
    refine ⟨hrank1, hsort1, ?_⟩
    rw [hrl1]
    exact List.Pairwise.nil
  | ok fs1 =>
    dsimp only
    rcases h2 : removePhase arena
        (sortDescBy (fun i => (relpathFor arena i).length) rm) fs1 with
      ⟨ops2, r2⟩
    have hops2 : ∀ o ∈ ops2, isRemoveOp o = true := by
      intro o ho
      exact removePhase_ops arena _ fs1 o (by rw [h2]; exact ho)
    have hsort2 : List.Pairwise (fun a b : Nat => b ≤ a) (removeLens ops2) := by
      have hmp := removePhase_sorted arena _ fs1
        (pairwise_sortDescBy (fun i => (relpathFor arena i).length) rm)
      rw [h2] at hmp
      exact hmp
    have hrank2 : List.Pairwise (fun a b => phaseRank a ≤ phaseRank b) ops2 :=
      pairwise_rank_const ops2 1 (fun o ho => rank_of_remove (hops2 o ho))
    have hml2 : moveDstLens ops2 = [] :=
      moveDstLens_nil_of_not_move ops2
        (fun o ho => not_move_of_remove (hops2 o ho))
    have hrank12 : List.Pairwise (fun a b => phaseRank a ≤ phaseRank b)
        (ops1 ++ ops2) :=
      pairwise_rank_append ops1 ops2 hrank1 hrank2
        (fun x hx y hy => by
          rw [rank_of_move (hops1 x hx), rank_of_remove (hops2 y hy)]
          omega)
    have hml12 : moveDstLens (ops1 ++ ops2) = moveDstLens ops1 := by
      rw [moveDstLens, List.filterMap_append, ← moveDstLens, ← moveDstLens,
        hml2, List.append_nil]
    have hrl12 : removeLens (ops1 ++ ops2) = removeLens ops2 := by
      rw [removeLens, List.filterMap_append, ← removeLens, ← removeLens,
        hrl1, List.nil_append]
    cases r2 with
    | error e =>
      dsimp only
      refine ⟨hrank12, ?_, ?_⟩
      · rw [hml12]; exact hsort1
      · rw [hrl12]; exact hsort2
    | ok fs2 =>
      dsimp only
      rcases h3 : addDirsPhase arena
          (sortAscBy (fun i => (relpathFor arena i).length)
            (ad.filter
              (fun i => (getNode arena i).record.type == TreeRecordType.tree)))
          fs2 with ⟨ops3, r3⟩
      have hops3 : ∀ o ∈ ops3, isWriteOp o = true := by
        intro o ho
        exact addDirsPhase_ops arena _ fs2 o (by rw [h3]; exact ho)
      cases r3 with
      | error e =>
        dsimp only
        have hw : ∀ o ∈ ops3, isWriteOp o = true := hops3
        refine ⟨?_, ?_, ?_⟩
        · refine pairwise_rank_append (ops1 ++ ops2) ops3 hrank12
            (pairwise_rank_const ops3 2 (fun o ho => rank_of_write (hw o ho)))
            ?_
          intro x hx y hy
          rw [rank_of_write (hw y hy)]
          rcases List.mem_append.mp hx with h | h
          · rw [rank_of_move (hops1 x h)]; omega
          · rw [rank_of_remove (hops2 x h)]; omega
        · rw [moveDstLens, List.filterMap_append, ← moveDstLens, ← moveDstLens,
            moveDstLens_nil_of_not_move ops3
              (fun o ho => not_move_of_write (hw o ho)),
            List.append_nil, hml12]
          exact hsort1
        · rw [removeLens, List.filterMap_append, ← removeLens, ← removeLens,
            removeLens_nil_of_not_remove ops3
              (fun o ho => not_remove_of_write (hw o ho)),
            List.append_nil, hrl12]
          exact hsort2
      | ok fs3 =>
        dsimp only
        rcases h4 : addBlobsPhase store arena
            (sortAscBy (fun i => (relpathFor arena i).length)
              (ad.filter
                (fun i =>
                  (getNode arena i).record.type == TreeRecordType.blob)))
            fs3 with ⟨ops4, r4⟩
        have hops4 : ∀ o ∈ ops4, isWriteOp o = true := by
          intro o ho
          exact addBlobsPhase_ops store arena _ fs3 o (by rw [h4]; exact ho)
        cases r4 with
        | error e =>
          dsimp only
          have hw : ∀ o ∈ ops3 ++ ops4, isWriteOp o = true := by
            intro o ho
            rcases List.mem_append.mp ho with h | h
            · exact hops3 o h
            · exact hops4 o h
          refine ⟨?_, ?_, ?_⟩
          · rw [List.append_assoc (ops1 ++ ops2)]
            refine pairwise_rank_append (ops1 ++ ops2) (ops3 ++ ops4) hrank12
              (pairwise_rank_const _ 2 (fun o ho => rank_of_write (hw o ho)))
              ?_
            intro x hx y hy
            rw [rank_of_write (hw y hy)]
            rcases List.mem_append.mp hx with h | h
            · rw [rank_of_move (hops1 x h)]; omega
            · rw [rank_of_remove (hops2 x h)]; omega
          · rw [List.append_assoc (ops1 ++ ops2), moveDstLens,
              List.filterMap_append, ← moveDstLens, ← moveDstLens,
              moveDstLens_nil_of_not_move (ops3 ++ ops4)
                (fun o ho => not_move_of_write (hw o ho)),
              List.append_nil, hml12]
            exact hsort1
          · rw [List.append_assoc (ops1 ++ ops2), removeLens,
              List.filterMap_append, ← removeLens, ← removeLens,
              removeLens_nil_of_not_remove (ops3 ++ ops4)
                (fun o ho => not_remove_of_write (hw o ho)),
              List.append_nil, hrl12]
            exact hsort2
        | ok fs4 =>
          dsimp only
          have hops5 : ∀ o ∈ (modPhase store arena troot
              (sortAscBy (fun i => (relpathFor arena i).length) md) cache
              fs4).1, isWriteOp o = true := by
            intro o ho
            exact modPhase_ops store arena troot _ cache fs4 o ho
          have hw : ∀ o ∈ ops3 ++ ops4 ++ (modPhase store arena troot
              (sortAscBy (fun i => (relpathFor arena i).length) md) cache
              fs4).1, isWriteOp o = true := by
            intro o ho
            rcases List.mem_append.mp ho with h | h
            · rcases List.mem_append.mp h with h1 | h1
              · exact hops3 o h1
              · exact hops4 o h1
            · exact hops5 o h
          refine ⟨?_, ?_, ?_⟩
          · rw [List.append_assoc (ops1 ++ ops2) ops3 ops4,
              List.append_assoc (ops1 ++ ops2) (ops3 ++ ops4) _]
            refine pairwise_rank_append (ops1 ++ ops2) _ hrank12
              (pairwise_rank_const _ 2 (fun o ho => rank_of_write (hw o ho)))
              ?_
            intro x hx y hy
            rw [rank_of_write (hw y hy)]
            rcases List.mem_append.mp hx with h | h
            · rw [rank_of_move (hops1 x h)]; omega
            · rw [rank_of_remove (hops2 x h)]; omega
          · rw [List.append_assoc (ops1 ++ ops2) ops3 ops4,
              List.append_assoc (ops1 ++ ops2) (ops3 ++ ops4) _,
              moveDstLens, List.filterMap_append, ← moveDstLens, ← moveDstLens,
              moveDstLens_nil_of_not_move _
                (fun o ho => not_move_of_write (hw o ho)),
              List.append_nil, hml12]
            exact hsort1
          · rw [List.append_assoc (ops1 ++ ops2) ops3 ops4,
              List.append_assoc (ops1 ++ ops2) (ops3 ++ ops4) _,
              removeLens, List.filterMap_append, ← removeLens, ← removeLens,
              removeLens_nil_of_not_remove _
                (fun o ho => not_remove_of_write (hw o ho)),
              List.append_nil, hrl12]
            exact hsort2

/-- Every run of `Repository._apply_diffs` is phase-ordered with
rename destinations ascending and removals descending by depth. -/
theorem applyDiffs_run_ordered :
    ∀ (store : Store) (fuel : Nat) (arena : List DiffNode) (tops : List Nat)
      (targetRoot : Option CafTree) (cache : List (String × CafTree))
      (fs : FSTree) (ops : List FsOp) (res : Except RErr FSTree),
      applyDiffs store fuel arena tops targetRoot cache fs = some (ops, res) →
      List.Pairwise (fun a b => phaseRank a ≤ phaseRank b) ops ∧
      List.Pairwise (fun a b : Nat => a ≤ b) (moveDstLens ops) ∧
      List.Pairwise (fun a b : Nat => b ≤ a) (removeLens ops) := by
  intro store fuel arena tops targetRoot cache fs ops res h
  unfold applyDiffs at h
  cases hf : flattenNodes arena fuel tops.reverse [] with
  | none => rw [hf] at h; simp at h
  | some flat =>
    rw [hf] at h
    dsimp only at h
    cases targetRoot with
    | none =>
      simp only [Option.some.injEq, Prod.mk.injEq] at h
      rw [← h.1]
      exact ⟨List.Pairwise.nil, by simp [moveDstLens], by simp [removeLens]⟩
    | some troot =>
      simp only [Option.some.injEq] at h
      have hops := congrArg Prod.fst h
      dsimp only at hops
      rw [← hops]
      exact applyBuckets_phase_order store arena troot cache fs _ _ _ _

/-- The diff arena of the C2 counterexample: two moves whose source and
destination depths are ordered oppositely.  Node 3 (`a/b/sf`) pairs
with node 4 (destination `f`, depth 1); node 7 (`sx`) pairs with node 6
(destination `d/g`, depth 2). -/
def cexArena : List DiffNode :=
  [⟨DiffKind.plain, ⟨TreeRecordType.tree, "", ""⟩, none, [1, 4, 5, 7], none⟩,
   ⟨DiffKind.modified, ⟨TreeRecordType.tree, "hashDirA", "a"⟩, some 0, [2],
    none⟩,
   ⟨DiffKind.modified, ⟨TreeRecordType.tree, "hashDirB", "b"⟩, some 1, [3],
    none⟩,
   ⟨DiffKind.movedTo, ⟨TreeRecordType.blob, "h1", "sf"⟩, some 2, [], some 4⟩,
   ⟨DiffKind.movedFrom, ⟨TreeRecordType.blob, "h1", "f"⟩, some 0, [], some 3⟩,
   ⟨DiffKind.modified, ⟨TreeRecordType.tree, "hashDirD", "d"⟩, some 0, [6],
    none⟩,
   ⟨DiffKind.movedFrom, ⟨TreeRecordType.blob, "h2", "g"⟩, some 5, [], some 7⟩,
   ⟨DiffKind.movedTo, ⟨TreeRecordType.blob, "h2", "sx"⟩, some 0, [], some 6⟩]

/-- A working directory holding both move sources. -/
def cexFs : FSTree :=
  FSTree.dir
    [("a", FSTree.dir [("b", FSTree.dir [("sf", FSTree.file "h1")])]),
     ("d", FSTree.dir []),
     ("sx", FSTree.file "h2")]

/-- The operations of `checkout.apply_diffs` on the counterexample. -/
def cexOps : List FsOp :=
  ((checkoutApplyDiffs emptyStore 50 cexArena [1, 4, 5, 7] [] (some tIns1)
      cexFs).getD ([], Except.error RErr.moveMissing)).1

/-- C2 counterexample: the applier variant in the checkout module sorts
moves by source-path depth, so on this forest it performs the move with
destination depth 2 before the move with destination depth 1 — its
moves are not ordered by destination-path depth ascending, refuting the
claim for that applier. -/
theorem checkout_applier_moves_not_dest_ordered :
    (checkoutApplyDiffs emptyStore 50 cexArena [1, 4, 5, 7] [] (some tIns1)
        cexFs).isSome = true ∧
    moveDstLens cexOps = [2, 1] ∧
    ¬ List.Pairwise (fun a b : Nat => a ≤ b) (moveDstLens cexOps) :=
  ⟨rfl, rfl, by decide⟩

/-- The run of `Repository._apply_diffs` on the same counterexample
forest, for the witness. -/
def wOps : List FsOp × Except RErr FSTree :=
  (applyDiffs emptyStore 50 cexArena [1, 4, 5, 7] (some tIns1) []
      cexFs).getD ([], Except.error RErr.moveMissing)

/-- Source-path depths of the rename operations of a run, in order. -/
def moveSrcLens (ops : List FsOp) : List Nat :=
  ops.filterMap
    (fun o => match o with | FsOp.move src _ => some src.length | _ => none)

theorem handleMovesGo_ops (arena : List DiffNode) (cwd : List String) :
    ∀ (l : List (Nat × List String)) (fs : FSTree) (o : FsOp),
      o ∈ (handleMovesGo arena cwd l fs).1 → isMoveOp o = true := by
  intro l
  induction l with
  | nil => intro fs o ho; simp [handleMovesGo] at ho
  | cons m rest ih =>
    intro fs o ho
    obtain ⟨i, destPath⟩ := m
    unfold handleMovesGo at ho
    split at ho
    · exact ih _ o ho
    · dsimp only at ho
      split at ho
      · simp at ho
      · split at ho
        · simp at ho; subst ho; rfl
        · split at ho
          · rcases List.mem_cons.mp ho with h1 | h1
            · subst h1; rfl
            · simp at h1; subst h1; rfl
          · rcases List.mem_cons.mp ho with h1 | h1
            · subst h1; rfl
            · rcases List.mem_cons.mp h1 with h2 | h2
              · subst h2; rfl
              · exact ih _ o h2

theorem handleMovesGo_src_mem (arena : List DiffNode) (cwd : List String) :
    ∀ (l : List (Nat × List String)) (fs : FSTree) (x : Nat),
      x ∈ moveSrcLens (handleMovesGo arena cwd l fs).1 →
      ∃ m ∈ l, x = cwd.length + moveSortKey arena m := by
  intro l
  induction l with
  | nil => intro fs x hx; simp [handleMovesGo, moveSrcLens] at hx
  | cons m rest ih =>
    intro fs x hx
    obtain ⟨i, destPath⟩ := m
    unfold handleMovesGo at hx
    split at hx
    · obtain ⟨j, hj, he⟩ := ih _ x hx
      exact ⟨j, List.mem_cons_of_mem _ hj, he⟩
    · rename_i mt hlink
      dsimp only at hx
      split at hx
      · simp [moveSrcLens] at hx
      · split at hx
        · simp [moveSrcLens] at hx
        · split at hx
          · simp [moveSrcLens] at hx
            refine ⟨(i, destPath), List.mem_cons_self _ _, ?_⟩
            rw [hx, moveSortKey, hlink]
            simp
          · simp only [moveSrcLens, List.filterMap_cons] at hx
            rcases List.mem_cons.mp hx with h1 | h1
            · refine ⟨(i, destPath), List.mem_cons_self _ _, ?_⟩
              rw [h1, moveSortKey, hlink]
              simp
            · obtain ⟨j, hj, he⟩ := ih _ x h1
              exact ⟨j, List.mem_cons_of_mem _ hj, he⟩

theorem handleMovesGo_sorted (arena : List DiffNode) (cwd : List String) :
    ∀ (l : List (Nat × List String)) (fs : FSTree),
      List.Pairwise (fun a b => moveSortKey arena a ≤ moveSortKey arena b) l →
      List.Pairwise (fun a b : Nat => a ≤ b)
        (moveSrcLens (handleMovesGo arena cwd l fs).1) := by
  intro l
  induction l with
  | nil => intro fs hp; simp [handleMovesGo, moveSrcLens]
  | cons m rest ih =>
    intro fs hp
    rcases List.pairwise_cons.mp hp with ⟨hhead, htail⟩
    obtain ⟨i, destPath⟩ := m
    unfold handleMovesGo
    split
    · exact ih _ htail
    · rename_i mt hlink
      dsimp only
      split
      · simp [moveSrcLens]
      · split
        · simp [moveSrcLens]
        · split
          · simp [moveSrcLens]
          · simp only [moveSrcLens, List.filterMap_cons]
            refine List.pairwise_cons.mpr ⟨?_, ih _ htail⟩
            intro x hx
            obtain ⟨j, hj, he⟩ := handleMovesGo_src_mem arena cwd rest _ x hx
            rw [he]
            have hk : (cwd ++ relpathFor arena mt).length =
                cwd.length + moveSortKey arena (i, destPath) := by
              rw [moveSortKey, hlink]
              simp
            rw [hk]
            exact Nat.add_le_add_left (hhead j hj) cwd.length

theorem handleRemovalsGo_ops :
    ∀ (l : List (Nat × List String)) (fs : FSTree) (o : FsOp),
      o ∈ (handleRemovalsGo l fs).1 → isRemoveOp o = true := by
  intro l
  induction l with
  | nil => intro fs o ho; simp [handleRemovalsGo] at ho
  | cons m rest ih =>
    intro fs o ho
    obtain ⟨i, path⟩ := m
    unfold handleRemovalsGo at ho
    split at ho
    · exact ih _ o ho
    · split at ho
      · simp at ho; subst ho; rfl
      · rcases List.mem_cons.mp ho with h1 | h1
        · subst h1; rfl
        · exact ih _ o h1
    · split at ho
      · simp at ho; subst ho; rfl
      · rcases List.mem_cons.mp ho with h1 | h1
        · subst h1; rfl
        · exact ih _ o h1

theorem handleRemovalsGo_len_mem :
    ∀ (l : List (Nat × List String)) (fs : FSTree) (x : Nat),
      x ∈ removeLens (handleRemovalsGo l fs).1 → ∃ m ∈ l, x = m.2.length := by
  intro l
  induction l with
  | nil => intro fs x hx; simp [handleRemovalsGo, removeLens] at hx
  | cons m rest ih =>
    intro fs x hx
    obtain ⟨i, path⟩ := m
    unfold handleRemovalsGo at hx
    split at hx
    · obtain ⟨j, hj, he⟩ := ih _ x hx
      exact ⟨j, List.mem_cons_of_mem _ hj, he⟩
    · split at hx
      · simp [removeLens] at hx
        exact ⟨(i, path), List.mem_cons_self _ _, hx⟩
      · simp only [removeLens, List.filterMap_cons] at hx
        rcases List.mem_cons.mp hx with h1 | h1
        · exact ⟨(i, path), List.mem_cons_self _ _, h1⟩
        · obtain ⟨j, hj, he⟩ := ih _ x h1
          exact ⟨j, List.mem_cons_of_mem _ hj, he⟩
    · split at hx
      · simp [removeLens] at hx
        exact ⟨(i, path), List.mem_cons_self _ _, hx⟩
      · simp only [removeLens, List.filterMap_cons] at hx
        rcases List.mem_cons.mp hx with h1 | h1
        · exact ⟨(i, path), List.mem_cons_self _ _, h1⟩
        · obtain ⟨j, hj, he⟩ := ih _ x h1
          exact ⟨j, List.mem_cons_of_mem _ hj, he⟩

theorem handleRemovalsGo_sorted :
    ∀ (l : List (Nat × List String)) (fs : FSTree),
      List.Pairwise (fun a b : Nat × List String => b.2.length ≤ a.2.length)
        l →
      List.Pairwise (fun a b : Nat => b ≤ a)
        (removeLens (handleRemovalsGo l fs).1) := by
  intro l
  induction l with
  | nil => intro fs hp; simp [handleRemovalsGo, removeLens]
  | cons m rest ih =>
    intro fs hp
    rcases List.pairwise_cons.mp hp with ⟨hhead, htail⟩
    obtain ⟨i, path⟩ := m
    unfold handleRemovalsGo
    split
    · exact ih _ htail
    · split
      · simp [removeLens]
      · simp only [removeLens, List.filterMap_cons]
        refine List.pairwise_cons.mpr ⟨?_, ih _ htail⟩
        intro x hx
        obtain ⟨j, hj, he⟩ := handleRemovalsGo_len_mem rest _ x hx
        rw [he]
        exact hhead j hj
    · split
      · simp [removeLens]
      · simp only [removeLens, List.filterMap_cons]
        refine List.pairwise_cons.mpr ⟨?_, ih _ htail⟩
        intro x hx
        obtain ⟨j, hj, he⟩ := handleRemovalsGo_len_mem rest _ x hx
        rw [he]
        exact hhead j hj

theorem rewriteModifiedFile_ops (store : Store) (cwd : List String)
    (path : List String) (targetTree : Option CafTree) (fs : FSTree) :
    ∀ o ∈ (rewriteModifiedFile store cwd path targetTree fs).1,
      isWriteOp o = true := by
  intro o ho
  unfold rewriteModifiedFile at ho
  split at ho
  · simp at ho
  · dsimp only at ho
    split at ho
    · simp at ho
    · split at ho
      · simp at ho
      · split at ho
        · simp at ho; subst ho; rfl
        · split at ho
          · split at ho
            · simp at ho; subst ho; rfl
            · rcases List.mem_cons.mp ho with h1 | h1
              · subst h1; rfl
              · simp at h1; subst h1; rfl
          · simp at ho; subst ho; rfl

theorem handleWrites_ops (store : Store) (arena : List DiffNode)
    (cwd : List String) (targetTree : Option CafTree) :
    ∀ (l : List (Nat × List String)) (fs : FSTree) (o : FsOp),
      o ∈ (handleWrites store arena cwd targetTree l fs).1 →
      isWriteOp o = true := by
  intro l
  induction l with
  | nil => intro fs o ho; simp [handleWrites] at ho
  | cons m rest ih =>
    intro fs o ho
    obtain ⟨i, path⟩ := m
    unfold handleWrites at ho
    dsimp only at ho
    repeat' split at ho
    all_goals
      first
      | (simp only [List.mem_singleton] at ho
         subst ho
         rfl)
      | (rcases List.mem_cons.mp ho with h1 | h1
         · subst h1; rfl
         · first
           | exact ih _ o h1
           | (rcases List.mem_cons.mp h1 with h2 | h2
              · subst h2; rfl
              · exact ih _ o h2)
           | (rcases List.mem_append.mp h1 with h2 | h2
              · exact rewriteModifiedFile_ops store cwd path targetTree _ o h2
              · exact ih _ o h2)
           | exact rewriteModifiedFile_ops store cwd path targetTree _ o h1)

theorem moveSrcLens_nil_of_not_move (ops : List FsOp)
    (h : ∀ o ∈ ops, isMoveOp o = false) : moveSrcLens ops = [] := by
  rw [moveSrcLens, List.filterMap_eq_nil_iff]
  intro o ho
  have hk := h o ho
  cases o <;> simp_all [isMoveOp]

/-- Every run of `checkout.apply_diffs` is phase-ordered, with rename
SOURCES ascending and removals descending by depth. -/
theorem checkoutApplyDiffs_run_ordered :
    ∀ (store : Store) (fuel : Nat) (arena : List DiffNode) (tops : List Nat)
      (cwd : List String) (targetTree : Option CafTree) (fs : FSTree)
      (ops : List FsOp) (res : Except RErr FSTree),
      checkoutApplyDiffs store fuel arena tops cwd targetTree fs =
        some (ops, res) →
      List.Pairwise (fun a b => phaseRank a ≤ phaseRank b) ops ∧
      List.Pairwise (fun a b : Nat => a ≤ b) (moveSrcLens ops) ∧
      List.Pairwise (fun a b : Nat => b ≤ a) (removeLens ops) := by
  intro store fuel arena tops cwd targetTree fs ops res h
  unfold checkoutApplyDiffs at h
  dsimp only at h
  cases ht : traversePostOrder arena fuel
      (tops.map
        (fun i =>
          (i,
           if (getNode arena i).record.name == "" then cwd
           else cwd ++ [(getNode arena i).record.name]))) [] [] [] with
  | none => rw [ht] at h; simp at h
  | some buckets =>
    rw [ht] at h
    obtain ⟨moves, removals, writes⟩ := buckets
    dsimp only at h
    rcases h1 : handleMoves arena cwd moves fs with ⟨ops1, r1⟩
    rw [h1] at h
    have h1' : handleMovesGo arena cwd (sortAscBy (moveSortKey arena) moves)
        fs = (ops1, r1) := by
      rw [← handleMoves]
      exact h1
    have hops1 : ∀ o ∈ ops1, isMoveOp o = true := by
      intro o ho
      exact handleMovesGo_ops arena cwd
        (sortAscBy (moveSortKey arena) moves) fs o (by rw [h1']; exact ho)
    have hsort1 : List.Pairwise (fun a b : Nat => a ≤ b)
        (moveSrcLens ops1) := by
      have hmp := handleMovesGo_sorted arena cwd
        (sortAscBy (moveSortKey arena) moves) fs
        (pairwise_sortAscBy (moveSortKey arena) moves)
      rw [h1'] at hmp
      exact hmp
    have hrank1 : List.Pairwise (fun a b => phaseRank a ≤ phaseRank b) ops1 :=
      pairwise_rank_const ops1 0 (fun o ho => rank_of_move (hops1 o ho))
    have hrl1 : removeLens ops1 = [] :=
      removeLens_nil_of_not_remove ops1
        (fun o ho => not_remove_of_move (hops1 o ho))
    cases r1 with
    | error e =>
      simp only [Option.some.injEq, Prod.mk.injEq] at h
      rw [← h.1]
      refine ⟨hrank1, hsort1, ?_⟩
      rw [hrl1]
      exact List.Pairwise.nil
    | ok fs1 =>
      dsimp only at h
      rcases h2 : handleRemovals removals fs1 with ⟨ops2, r2⟩
      rw [h2] at h
      have h2' : handleRemovalsGo
          (sortDescBy (fun m : Nat × List String => m.2.length) removals)
          fs1 = (ops2, r2) := by
        rw [← handleRemovals]
        exact h2
      have hops2 : ∀ o ∈ ops2, isRemoveOp o = true := by
        intro o ho
        exact handleRemovalsGo_ops
          (sortDescBy (fun m : Nat × List String => m.2.length) removals)
          fs1 o (by rw [h2']; exact ho)
      have hsort2 : List.Pairwise (fun a b : Nat => b ≤ a)
          (removeLens ops2) := by
        have hmp := handleRemovalsGo_sorted
          (sortDescBy (fun m : Nat × List String => m.2.length) removals)
          fs1
          (pairwise_sortDescBy (fun m : Nat × List String => m.2.length)
            removals)
        rw [h2'] at hmp
        exact hmp
      have hrank2 : List.Pairwise (fun a b => phaseRank a ≤ phaseRank b)
          ops2 :=
        pairwise_rank_const ops2 1 (fun o ho => rank_of_remove (hops2 o ho))
      have hml2 : moveSrcLens ops2 = [] :=
        moveSrcLens_nil_of_not_move ops2
          (fun o ho => not_move_of_remove (hops2 o ho))
      have hrank12 : List.Pairwise (fun a b => phaseRank a ≤ phaseRank b)
          (ops1 ++ ops2) :=
        pairwise_rank_append ops1 ops2 hrank1 hrank2
          (fun x hx y hy => by
            rw [rank_of_move (hops1 x hx), rank_of_remove (hops2 y hy)]
            omega)
      have hml12 : moveSrcLens (ops1 ++ ops2) = moveSrcLens ops1 := by
        rw [moveSrcLens, List.filterMap_append, ← moveSrcLens, ← moveSrcLens,
          hml2, List.append_nil]
      have hrl12 : removeLens (ops1 ++ ops2) = removeLens ops2 := by
        rw [removeLens, List.filterMap_append, ← removeLens, ← removeLens,
          hrl1, List.nil_append]
      cases r2 with
      | error e =>
        simp only [Option.some.injEq, Prod.mk.injEq] at h
        rw [← h.1]
        refine ⟨hrank12, ?_, ?_⟩
        · rw [hml12]; exact hsort1
        · rw [hrl12]; exact hsort2
      | ok fs2 =>
        dsimp only at h
        simp only [Option.some.injEq, Prod.mk.injEq] at h
        rw [← h.1]
        have hops3 : ∀ o ∈ (handleWrites store arena cwd targetTree writes
            fs2).1, isWriteOp o = true :=
          fun o ho => handleWrites_ops store arena cwd targetTree _ fs2 o ho
        refine ⟨?_, ?_, ?_⟩
        · rw [List.append_assoc ops1 ops2 _]
          refine pairwise_rank_append ops1 _ hrank1 ?_ ?_
          · refine pairwise_rank_append ops2 _ hrank2
              (pairwise_rank_const _ 2
                (fun o ho => rank_of_write (hops3 o ho))) ?_
            intro x hx y hy
            rw [rank_of_remove (hops2 x hx), rank_of_write (hops3 y hy)]
            omega
          · intro x hx y hy
            rw [rank_of_move (hops1 x hx)]
            omega
        · rw [moveSrcLens, List.filterMap_append, List.filterMap_append,
            ← moveSrcLens, ← moveSrcLens, ← moveSrcLens, hml2,
            moveSrcLens_nil_of_not_move _
              (fun o ho => not_move_of_write (hops3 o ho)),
            List.append_nil, List.append_nil]
          exact hsort1
        · rw [removeLens, List.filterMap_append, List.filterMap_append,
            ← removeLens, ← removeLens, ← removeLens, hrl1,
            removeLens_nil_of_not_remove _
              (fun o ho => not_remove_of_write (hops3 o ho)),
            List.append_nil, List.nil_append]
          exact hsort2

/-- C2 (amended): every run of `Repository._apply_diffs` — the applier
checkout invokes — processes all moves (ordered by destination-path
depth ascending) before any removal, and all removals (ordered by path
depth descending, directories deleted recursively) before any write of
Added or Modified content; the checkout-module applier variant has the
same phase order and removal order but sorts its moves by SOURCE-path
depth ascending instead of destination depth. -/
theorem apply_diffs_phase_order :
    (∀ (store : Store) (fuel : Nat) (arena : List DiffNode) (tops : List Nat)
       (targetRoot : Option CafTree) (cache : List (String × CafTree))
       (fs : FSTree) (ops : List FsOp) (res : Except RErr FSTree),
       applyDiffs store fuel arena tops targetRoot cache fs =
         some (ops, res) →
       List.Pairwise (fun a b => phaseRank a ≤ phaseRank b) ops ∧
       List.Pairwise (fun a b : Nat => a ≤ b) (moveDstLens ops) ∧
       List.Pairwise (fun a b : Nat => b ≤ a) (removeLens ops)) ∧
    (∀ (store : Store) (fuel : Nat) (arena : List DiffNode) (tops : List Nat)
       (cwd : List String) (targetTree : Option CafTree) (fs : FSTree)
       (ops : List FsOp) (res : Except RErr FSTree),
       checkoutApplyDiffs store fuel arena tops cwd targetTree fs =
         some (ops, res) →
       List.Pairwise (fun a b => phaseRank a ≤ phaseRank b) ops ∧
       List.Pairwise (fun a b : Nat => a ≤ b) (moveSrcLens ops) ∧
       List.Pairwise (fun a b : Nat => b ≤ a) (removeLens ops)) :=
  ⟨applyDiffs_run_ordered, checkoutApplyDiffs_run_ordered⟩

/-- The run of `checkout.apply_diffs` on the counterexample forest, for
the witness. -/
def wOpsC : List FsOp × Except RErr FSTree :=
  (checkoutApplyDiffs emptyStore 50 cexArena [1, 4, 5, 7] [] (some tIns1)
      cexFs).getD ([], Except.error RErr.moveMissing)

/-- Witness for C2: both appliers applied at concrete runs. -/
theorem apply_diffs_phase_order_witness :
    (List.Pairwise (fun a b => phaseRank a ≤ phaseRank b) wOps.1 ∧
     List.Pairwise (fun a b : Nat => a ≤ b) (moveDstLens wOps.1) ∧
     List.Pairwise (fun a b : Nat => b ≤ a) (removeLens wOps.1)) ∧
    (List.Pairwise (fun a b => phaseRank a ≤ phaseRank b) wOpsC.1 ∧
     List.Pairwise (fun a b : Nat => a ≤ b) (moveSrcLens wOpsC.1) ∧
     List.Pairwise (fun a b : Nat => b ≤ a) (removeLens wOpsC.1)) :=
  ⟨apply_diffs_phase_order.1 emptyStore 50 cexArena [1, 4, 5, 7] (some tIns1)
     [] cexFs wOps.1 wOps.2 rfl,
   apply_diffs_phase_order.2 emptyStore 50 cexArena [1, 4, 5, 7] []
     (some tIns1) cexFs wOpsC.1 wOpsC.2 rfl⟩
